import Mathlib

/-!
Verification development for the `morph` struct-transformation library.

The engine walks a Go struct via reflection, compiles per-field tag strings
(comma-separated directives such as `"dive,keys,trim,exit,trim"`) into linked
instruction chains, caches them per struct type, and executes them against
live values, mutating in place.

The shallow embedding below models Go values as the inductive `Value`,
reflection kinds by the constructors themselves, and the traversal engine
(`morphField` / `morphStruct` / `dive` / `morphCollection` / `morphMap` /
`morphMapKey`) as fuel-indexed functions: registered transformers are
arbitrary functions, so the traversal admits genuinely non-terminating
executions (a transformer returning a container that is dived into again);
the fuel parameter makes the embedding total, with `none` meaning the
execution did not finish within the given fuel.

Addressability: in the Go code a transformation reaches the original storage
location only through `reflect` aliasing.  `getAssignableValue` hands the
transformer either an alias of the original storage (addressable, non-pointer
values), a fresh zero value (a nil pointer), or a fresh copy (non-addressable
values, i.e. values reached through an `interface{}`).  The final guard in
`morphField`, `if err != nil || newValue != actualValue { return }`, compares
two `*reflect.Value` pointers that are always distinct (`getAssignableValue`
returns the address of its own local), so `assignValue` is unreachable and no
copy-back ever happens.  The embedding threads an `addr : Bool` flag that
records whether the working copy aliases the original storage; mutations are
kept exactly when they alias (and always for slice elements and map entries,
which the code updates through the shared backing store / `SetMapIndex`).
-/

namespace Morph

/-! ## Models of the Go standard library pieces used by the code -/

/-- `unicode.IsSpace`: Unicode White_Space property, as used by
`strings.TrimSpace`. -/
def goIsSpace (c : Char) : Bool :=
  c = ' ' ∨ c = '\t' ∨ c = '\n' ∨ c.val = 11 ∨ c.val = 12 ∨ c = '\r' ∨
  c.val = 0x85 ∨ c.val = 0xA0 ∨ c.val = 0x1680 ∨
  (0x2000 ≤ c.val ∧ c.val ≤ 0x200A) ∨ c.val = 0x2028 ∨ c.val = 0x2029 ∨
  c.val = 0x202F ∨ c.val = 0x205F ∨ c.val = 0x3000

/-- `strings.TrimSpace` on the character list: drop leading and trailing
white space. -/
def goTrimSpaceList (l : List Char) : List Char :=
  ((l.dropWhile goIsSpace).reverse.dropWhile goIsSpace).reverse

/-- `strings.TrimSpace`. -/
def goTrimSpace (s : String) : String :=
  ⟨goTrimSpaceList s.toList⟩

/-- `strings.ToLower`, restricted to the simple case mapping. -/
def goToLower (s : String) : String :=
  ⟨s.toList.map Char.toLower⟩

/-- `strings.ToUpper`, restricted to the simple case mapping. -/
def goToUpper (s : String) : String :=
  ⟨s.toList.map Char.toUpper⟩

/-- Decimal value of a digit list. -/
def digitsToNat (l : List Char) : Nat :=
  l.foldl (fun acc c => 10 * acc + (c.toNat - '0'.toNat)) 0

/-- The optional leading sign of `strconv.ParseInt`. -/
def goAtoiSign (l : List Char) : Int × List Char :=
  match l with
  | '+' :: rest => (1, rest)
  | '-' :: rest => (-1, rest)
  | _ => (1, l)

/-- The range of the machine `int` (64-bit platforms). -/
def intFits (v : Int) : Bool := -(2 ^ 63) ≤ v ∧ v ≤ 2 ^ 63 - 1

/-- `strconv.Atoi` = `strconv.ParseInt(s, 10, 0)`: an optional sign followed
by at least one decimal digit, with the resulting value required to fit the
machine `int`.  A malformed string is a syntax error and an out-of-range
value a range error; `Atoi` reports both as a non-nil error (`none` here). -/
def goAtoi (s : String) : Option Int :=
  if (goAtoiSign s.toList).2 ≠ [] ∧ (goAtoiSign s.toList).2.all Char.isDigit then
    if intFits ((goAtoiSign s.toList).1 * (digitsToNat (goAtoiSign s.toList).2 : Int)) then
      some ((goAtoiSign s.toList).1 * (digitsToNat (goAtoiSign s.toList).2 : Int))
    else
      none
  else
    none

/-! ## Tag constants (`morph.go`) -/

def TagTrim : String := "trim"
def TagLower : String := "lower"
def TagUpper : String := "upper"
def TagTruncate : String := "truncate"
def TagPrecision : String := "precision"
def TagDive : String := "dive"
def TagKeys : String := "keys"
def TagExit : String := "exit"
def TagIgnore : String := "-"
def TagSeparator : Char := ','
def ParamsSign : Char := '='

/-- `navigationalTags` (the reserved directive names). -/
def navigationalTags (t : String) : Bool :=
  t = TagDive ∨ t = TagKeys ∨ t = TagExit ∨ t = TagIgnore

/-! ## Errors (`errors.go`)

Each error constructor mirrors one `newError` / `newErrorf` call site; the
payload is the list of format arguments passed there. -/

inductive Err where
  | notAPointer : Err
  | notAStruct : Err
  | invalidTagName : Err
  | invalidTransformer : Err
  | unknownTag (tag : String) : Err
  | invalidDive (kind : String) : Err
  | unexpectedValue (tag kind : String) : Err
  | reservedTagOverride (tag : String) : Err
  | invalidParameters (args : List String) : Err
  | missingParameters (tag : String) : Err
  deriving DecidableEq, Repr

/-! ## Go values

`Value` models the Go values the engine can encounter, as seen through
`reflect`.  A struct value carries its type's package path and name (the
ingredients of the descriptor-cache key) and its fields as
`(exported, rawTag, value)` triples — in Go the tag lives on the struct type;
attaching it to the value keeps the embedding first-order.  A pointer value
carries the zero value of its element type (`reflect.New(t.Elem()).Elem()`),
which the code materialises when transforming a nil pointer.  Slices and maps
have Go reference semantics: mutations of their contents always reach the
original backing store.  Float-valued fields (and the float transformers)
are outside the modelled fragment; no claim refers to them. -/

inductive Value where
  | str (s : String) : Value
  | int (n : Int) : Value
  | ptr (zeroElem : Value) (v : Option Value) : Value
  | iface (v : Option Value) : Value
  | slice (elems : List Value) : Value
  | mp (entries : List (Value × Value)) : Value
  | structv (pkg name : String) (fields : List (Bool × String × Value)) : Value

/-! Structural decidable equality for `Value` (mutual with its nested
components, so that it reduces definitionally and `decide` works). -/
mutual

def Value.decEq : (a b : Value) → Decidable (a = b)
  | .str x, .str y =>
    match h : decide (x = y) with
    | true => isTrue (by simp_all)
    | false => isFalse (by simp_all)
  | .int x, .int y =>
    match h : decide (x = y) with
    | true => isTrue (by simp_all)
    | false => isFalse (by simp_all)
  | .ptr z v, .ptr z2 v2 =>
    match Value.decEq z z2 with
    | isFalse h => isFalse (by simp [h])
    | isTrue hz =>
      match decEqOptV v v2 with
      | isFalse h => isFalse (by simp [hz, h])
      | isTrue hv => isTrue (by rw [hz, hv])
  | .iface v, .iface v2 =>
    match decEqOptV v v2 with
    | isFalse h => isFalse (by simp [h])
    | isTrue hv => isTrue (by rw [hv])
  | .slice xs, .slice ys =>
    match decEqListV xs ys with
    | isFalse h => isFalse (by simp [h])
    | isTrue hs => isTrue (by rw [hs])
  | .mp xs, .mp ys =>
    match decEqEntries xs ys with
    | isFalse h => isFalse (by simp [h])
    | isTrue hs => isTrue (by rw [hs])
  | .structv p n fs, .structv p2 n2 fs2 =>
    match h : decide (p = p2 ∧ n = n2) with
    | false => isFalse (by simp_all)
    | true =>
      match decEqFields fs fs2 with
      | isFalse h2 => isFalse (by simp_all)
      | isTrue hs => isTrue (by simp_all)
  | .str _, .int _ => isFalse (by simp)
  | .str _, .ptr _ _ => isFalse (by simp)
  | .str _, .iface _ => isFalse (by simp)
  | .str _, .slice _ => isFalse (by simp)
  | .str _, .mp _ => isFalse (by simp)
  | .str _, .structv _ _ _ => isFalse (by simp)
  | .int _, .str _ => isFalse (by simp)
  | .int _, .ptr _ _ => isFalse (by simp)
  | .int _, .iface _ => isFalse (by simp)
  | .int _, .slice _ => isFalse (by simp)
  | .int _, .mp _ => isFalse (by simp)
  | .int _, .structv _ _ _ => isFalse (by simp)
  | .ptr _ _, .str _ => isFalse (by simp)
  | .ptr _ _, .int _ => isFalse (by simp)
  | .ptr _ _, .iface _ => isFalse (by simp)
  | .ptr _ _, .slice _ => isFalse (by simp)
  | .ptr _ _, .mp _ => isFalse (by simp)
  | .ptr _ _, .structv _ _ _ => isFalse (by simp)
  | .iface _, .str _ => isFalse (by simp)
  | .iface _, .int _ => isFalse (by simp)
  | .iface _, .ptr _ _ => isFalse (by simp)
  | .iface _, .slice _ => isFalse (by simp)
  | .iface _, .mp _ => isFalse (by simp)
  | .iface _, .structv _ _ _ => isFalse (by simp)
  | .slice _, .str _ => isFalse (by simp)
  | .slice _, .int _ => isFalse (by simp)
  | .slice _, .ptr _ _ => isFalse (by simp)
  | .slice _, .iface _ => isFalse (by simp)
  | .slice _, .mp _ => isFalse (by simp)
  | .slice _, .structv _ _ _ => isFalse (by simp)
  | .mp _, .str _ => isFalse (by simp)
  | .mp _, .int _ => isFalse (by simp)
  | .mp _, .ptr _ _ => isFalse (by simp)
  | .mp _, .iface _ => isFalse (by simp)
  | .mp _, .slice _ => isFalse (by simp)
  | .mp _, .structv _ _ _ => isFalse (by simp)
  | .structv _ _ _, .str _ => isFalse (by simp)
  | .structv _ _ _, .int _ => isFalse (by simp)
  | .structv _ _ _, .ptr _ _ => isFalse (by simp)
  | .structv _ _ _, .iface _ => isFalse (by simp)
  | .structv _ _ _, .slice _ => isFalse (by simp)
  | .structv _ _ _, .mp _ => isFalse (by simp)
termination_by structural a _ => a

def decEqOptV : (a b : Option Value) → Decidable (a = b)
  | none, none => isTrue rfl
  | none, some _ => isFalse (by simp)
  | some _, none => isFalse (by simp)
  | some a, some b =>
    match Value.decEq a b with
    | isFalse h => isFalse (by simp [h])
    | isTrue h => isTrue (by rw [h])
termination_by structural a _ => a

def decEqListV : (a b : List Value) → Decidable (a = b)
  | [], [] => isTrue rfl
  | [], _ :: _ => isFalse (by simp)
  | _ :: _, [] => isFalse (by simp)
  | a :: as, b :: bs =>
    match Value.decEq a b with
    | isFalse h => isFalse (by simp [h])
    | isTrue h =>
      match decEqListV as bs with
      | isFalse h2 => isFalse (by simp [h2])
      | isTrue h2 => isTrue (by rw [h, h2])
termination_by structural a _ => a

def decEqEntries : (a b : List (Value × Value)) → Decidable (a = b)
  | [], [] => isTrue rfl
  | [], _ :: _ => isFalse (by simp)
  | _ :: _, [] => isFalse (by simp)
  | (k, v) :: as, (k2, v2) :: bs =>
    match Value.decEq k k2 with
    | isFalse h => isFalse (by simp [h])
    | isTrue h1 =>
      match Value.decEq v v2 with
      | isFalse h => isFalse (by simp [h])
      | isTrue h2 =>
        match decEqEntries as bs with
        | isFalse h => isFalse (by simp [h])
        | isTrue h3 => isTrue (by rw [h1, h2, h3])
termination_by structural a _ => a

def decEqFields : (a b : List (Bool × String × Value)) → Decidable (a = b)
  | [], [] => isTrue rfl
  | [], _ :: _ => isFalse (by simp)
  | _ :: _, [] => isFalse (by simp)
  | (e, t, v) :: as, (e2, t2, v2) :: bs =>
    match h : decide (e = e2 ∧ t = t2) with
    | false => isFalse (by simp_all)
    | true =>
      match Value.decEq v v2 with
      | isFalse h2 => isFalse (by simp_all)
      | isTrue h2 =>
        match decEqFields as bs with
        | isFalse h3 => isFalse (by simp_all)
        | isTrue h3 => isTrue (by simp_all)
termination_by structural a _ => a

end

instance : DecidableEq Value := Value.decEq

/-- `reflect.Kind.String()` for the modelled kinds. -/
def kindName : Value → String
  | .str _ => "string"
  | .int _ => "int"
  | .ptr _ _ => "ptr"
  | .iface _ => "interface"
  | .slice _ => "slice"
  | .mp _ => "map"
  | .structv _ _ _ => "struct"

/-! ## Transformers (`field_transformers.go`)

`FieldTransformer` is the capability interface: `cache` parses the raw
parameter string once per (shape, field) key and yields the integer that the
code stores in the parameter map under that key (`none` for parameterless
transformers), and `transform` mutates a value given the stored parameter.
The per-key parameter store is modelled by resolving the store lookup at
compile time: the compiled chain node carries the integer that `Cache` stored
under the node's `paramsKey` and hands it to `transform`, exactly the value
`Transform` reads back from the store. -/

structure FieldTransformer where
  cache : String → Except Err (Option Int)
  transform : Option Int → Value → Except Err Value

/-- `IntParameterTransformer.Cache`: `strconv.Atoi` the raw parameters;
on failure the error is built with args `(TagPrecision, params)` (the shared
implementation always names `precision`). -/
def intParamCache (params : String) : Except Err Int :=
  match goAtoi params with
  | none => .error (.invalidParameters [TagPrecision, params])
  | some v => .ok v

/-- `trimTransformer.Transform`. -/
def trimTransform (v : Value) : Except Err Value :=
  match v with
  | .str s => .ok (.str (goTrimSpace s))
  | _ => .error (.unexpectedValue TagTrim (kindName v))

/-- `toLowerTransformer.Transform`. -/
def toLowerTransform (v : Value) : Except Err Value :=
  match v with
  | .str s => .ok (.str (goToLower s))
  | _ => .error (.unexpectedValue TagLower (kindName v))

/-- `toUpperTransformer.Transform`. -/
def toUpperTransform (v : Value) : Except Err Value :=
  match v with
  | .str s => .ok (.str (goToUpper s))
  | _ => .error (.unexpectedValue TagUpper (kindName v))

/-- `truncateTransformer.Transform`: `stored` is the value found in the
parameter store under the field's key (`none` when the store has no entry).
Note the kind check precedes the store lookup, the negative-limit check
happens here (at transform time, not in `Cache`), and its error carries no
format arguments. Go slices the string by bytes; the model slices by
characters (they agree on ASCII). -/
def truncateTransform (stored : Option Int) (v : Value) : Except Err Value :=
  match v with
  | .str s =>
    match stored with
    | none => .error (.missingParameters TagTruncate)
    | some limit =>
      if limit < 0 then .error (.invalidParameters [])
      else if limit < (s.length : Int) then .ok (.str ⟨s.toList.take limit.toNat⟩)
      else .ok (.str s)
  | _ => .error (.unexpectedValue TagTruncate (kindName v))

def trimTransformer : FieldTransformer :=
  ⟨fun _ => .ok none, fun _ v => trimTransform v⟩

def toLowerTransformer : FieldTransformer :=
  ⟨fun _ => .ok none, fun _ v => toLowerTransform v⟩

def toUpperTransformer : FieldTransformer :=
  ⟨fun _ => .ok none, fun _ v => toUpperTransform v⟩

def truncateTransformer : FieldTransformer :=
  ⟨fun p => (intParamCache p).map some, truncateTransform⟩

/-- The transformer registry (the string-valued part of the table installed
by `New()`; the float transformers act on values outside the modelled
fragment). -/
abbrev Registry := String → Option FieldTransformer

def defaultRegistry : Registry := fun t =>
  if t = TagTrim then some trimTransformer
  else if t = TagLower then some toLowerTransformer
  else if t = TagUpper then some toUpperTransformer
  else if t = TagTruncate then some truncateTransformer
  else none

/-! ## Compiled chains (`cache.go`)

`Chain` is the linked `tagChainCache`: directive name, resolved transformer
(`none` for navigation-only directives), the compiled integer parameter, the
separate key sub-chain (only ever non-nil on a `keys` node), and the forward
link. -/

inductive Chain where
  | nil : Chain
  | node (tag : String) (transformer : Option FieldTransformer) (param : Option Int)
      (keysChain : Chain) (next : Chain) : Chain

/-- Append two chains (used only to state compilation theorems). -/
def Chain.append : Chain → Chain → Chain
  | .nil, c => c
  | .node t tr p kc nx, c => .node t tr p kc (nx.append c)

/-- Split a character list at every occurrence of `sep` (the separator is
dropped; empty groups are kept). -/
def splitOnChar (sep : Char) : List Char → List (List Char)
  | [] => [[]]
  | c :: rest =>
    if c = sep then [] :: splitOnChar sep rest
    else
      match splitOnChar sep rest with
      | [] => [[c]]
      | g :: gs => (c :: g) :: gs

/-- `strings.FieldsFunc(raw, r == TagSeparator)`: the maximal runs of
non-separator characters, i.e. split on commas and drop empty tokens. -/
def splitTags (raw : String) : List String :=
  ((splitOnChar TagSeparator raw.toList).map (fun l => String.mk l)).filter
    (fun t => t ≠ "")

/-- The parameter split in `buildTagCache`: cut the token at the first
`ParamsSign` when its index is positive. -/
def paramsSplit (tok : String) : String × String :=
  match tok.toList.findIdx? (· == ParamsSign) with
  | some i =>
    if 0 < i then (⟨tok.toList.take i⟩, ⟨tok.toList.drop (i + 1)⟩) else (tok, "")
  | none => (tok, "")

/-- `cache.buildTagCache`: split off the parameters, resolve the directive
in the registry (unknown non-navigational directives fail), and run the
transformer's `Cache` step.  Returns the components of the chain node. -/
def buildTagCache (R : Registry) (tok : String) :
    Except Err (String × Option FieldTransformer × Option Int) :=
  let tag := (paramsSplit tok).1
  let params := (paramsSplit tok).2
  match R tag with
  | none =>
    if navigationalTags tag then .ok (tag, none, none)
    else .error (.unknownTag tag)
  | some tr => do
    let p ← tr.cache params
    .ok (tag, some tr, p)

/-- The inner loop of `cache.buildTagsCache` that builds the key sub-chain:
every consumed token becomes a plain node (no nested `keys` handling). -/
def buildKeysChain (R : Registry) : List String → Except Err Chain
  | [] => .ok .nil
  | tok :: rest => do
    let nd ← buildTagCache R tok
    let tail ← buildKeysChain R rest
    .ok (.node nd.1 nd.2.1 nd.2.2 .nil tail)

/-! The outer loop of `cache.buildTagsCache` over the split token list,
mutually with the inner loop that consumes a key sub-chain.  A raw token
equal to `keys` that is followed by at least one more token greedily
consumes the following tokens up to the first raw `exit` token (exclusive)
into its key sub-chain; the consumed `exit` (if any) is skipped and the
outer chain resumes after it. -/
mutual

def buildChainTokens (R : Registry) : List String → Except Err Chain
  | [] => .ok .nil
  | tok :: rest => do
    let nd ← buildTagCache R tok
    if tok = TagKeys ∧ rest ≠ [] then do
      let st ← buildKeysTail R rest
      .ok (.node nd.1 nd.2.1 nd.2.2 st.1 st.2)
    else do
      let tail ← buildChainTokens R rest
      .ok (.node nd.1 nd.2.1 nd.2.2 .nil tail)
termination_by structural ts => ts

/-- The inner loop of `cache.buildTagsCache` plus the resumption of the
outer loop: build plain nodes until a raw `exit` token or the end of input,
then build the outer chain from the tokens after the `exit`.  Returns the
key sub-chain and the outer tail. -/
def buildKeysTail (R : Registry) : List String → Except Err (Chain × Chain)
  | [] => .ok (.nil, .nil)
  | tok :: rest =>
    if tok = TagExit then do
      let tail ← buildChainTokens R rest
      .ok (.nil, tail)
    else do
      let nd ← buildTagCache R tok
      let st ← buildKeysTail R rest
      .ok (.node nd.1 nd.2.1 nd.2.2 .nil st.1, st.2)
termination_by structural ts => ts

end

/-- `cache.buildTagsCache`. -/
def buildTagsCache (R : Registry) (raw : String) : Except Err Chain :=
  buildChainTokens R (splitTags raw)

/-- One struct field as the cache sees it: positional index and compiled
chain (`fieldCache`). `Chain.nil` plays the role of the absent chain. -/
abbrev StructDescr := List (Nat × Chain)

/-- `cache.buildStructCache`: walk the fields in declaration order, skip
non-exported fields and fields whose whole tag is the ignore marker, compile
the tag of the remaining ones (an empty tag yields no chain). -/
def buildStructCacheAux (R : Registry) : Nat → List (Bool × String × Value) →
    Except Err StructDescr
  | _, [] => .ok []
  | i, (exported, rawTag, _) :: rest =>
    if !exported then buildStructCacheAux R (i + 1) rest
    else if rawTag = TagIgnore then buildStructCacheAux R (i + 1) rest
    else
      match (if rawTag.length > 0 then buildTagsCache R rawTag else .ok Chain.nil) with
      | .error e => .error e
      | .ok ch =>
        match buildStructCacheAux R (i + 1) rest with
        | .error e => .error e
        | .ok tail => .ok ((i, ch) :: tail)

def buildStructCache (R : Registry) (fields : List (Bool × String × Value)) :
    Except Err StructDescr :=
  buildStructCacheAux R 0 fields

/-! ## Go map operations

An association list with pairwise-distinct keys models a Go map; the list
order is one representative of Go's unspecified iteration order (theorems
quantify over the list, hence over every order). -/

/-- `mapValue.MapIndex(key)`. -/
def mapGet (m : List (Value × Value)) (k : Value) : Option Value :=
  match m with
  | [] => none
  | (k2, v) :: rest => if k2 = k then some v else mapGet rest k

/-- `mapValue.SetMapIndex(key, reflect.Value{})` — deletion. -/
def mapDel (m : List (Value × Value)) (k : Value) : List (Value × Value) :=
  match m with
  | [] => []
  | (k2, v) :: rest => if k2 = k then rest else (k2, v) :: mapDel rest k

/-- `mapValue.SetMapIndex(key, v)` — replace in place or add. -/
def mapSet (m : List (Value × Value)) (k : Value) (v : Value) : List (Value × Value) :=
  match m with
  | [] => [(k, v)]
  | (k2, v2) :: rest => if k2 = k then (k2, v) :: rest else (k2, v2) :: mapSet rest k v

/-! ## Traversal engine (`morph.go`)

The mutually recursive Go functions are written as helpers parametrised by a
callback `rec` (the recursive `morphField` entry at one less fuel), making
every helper structurally recursive on its own list/chain argument.

Each helper returns the new *stored* value together with the error: in Go
the caller observes mutations only through aliasing, and the `addr` flag says
whether the transformed working copy aliases the original storage (see the
file header; the copy-back guarded by `newValue != actualValue` in
`morphField` is unreachable, so a working copy that does not alias the
original is simply dropped). -/

abbrev Traverser := Bool → Value → Chain → Option (Value × Option Err)

/-- `morpher.morphCollection`: apply the chain to each element in order,
stopping at the first element error; elements before the failing one keep
their mutations (slice elements are addressable). -/
def morphCollection (rec : Traverser) : List Value → Chain → Option (List Value × Option Err)
  | [], _ => some ([], none)
  | v :: rest, tags =>
    match rec true v tags with
    | none => none
    | some (v2, some e) => some (v2 :: rest, some e)
    | some (v2, none) =>
      match morphCollection rec rest tags with
      | none => none
      | some (rest2, e) => some (v2 :: rest2, e)

/-- `morpher.morphMapKey`: transform a fresh addressable copy of the key
through the key sub-chain. -/
def morphMapKey (rec : Traverser) (k : Value) (keysChain : Chain) :
    Option (Value × Option Err) :=
  rec true k keysChain

/-- `shouldMorphKeys` in `morpher.morphMap`: the chain starts with a `keys`
node carrying a non-nil key sub-chain.  Returns the key sub-chain and the
value chain (`tags.next`). -/
def shouldMorphKeys : Chain → Option (Chain × Chain)
  | .nil => none
  | .node t _ _ kc next =>
    if t = TagKeys then
      match kc with
      | .nil => none
      | .node kt ktr kp kkc knx => some (.node kt ktr kp kkc knx, next)
    else none

/-- The loop body of `morpher.morphMap` over the snapshot of the keys
(`mapValue.MapKeys()`), carrying the current map.  In the keys branch the
entry is removed first; on an error it is not reinserted.  A key missing
from the current map cannot arise from a Go-reachable state (the code would
panic on `Set` of an invalid `reflect.Value`); the model skips it. -/
def morphMapGo (rec : Traverser) (tags : Chain) : List Value → List (Value × Value) →
    Option (List (Value × Value) × Option Err)
  | [], m => some (m, none)
  | k :: ks, m =>
    match mapGet m k with
    | none => morphMapGo rec tags ks m
    | some v =>
      match shouldMorphKeys tags with
      | some (kc, next) =>
        let m1 := mapDel m k
        match morphMapKey rec k kc with
        | none => none
        | some (_, some e) => some (m1, some e)
        | some (k2, none) =>
          match rec true v next with
          | none => none
          | some (_, some e) => some (m1, some e)
          | some (v2, none) => morphMapGo rec tags ks (mapSet m1 k2 v2)
      | none =>
        match rec true v tags with
        | none => none
        | some (_, some e) => some (m, some e)
        | some (v2, none) => morphMapGo rec tags ks (mapSet m k v2)

/-- `morpher.morphMap`. -/
def morphMap (rec : Traverser) (entries : List (Value × Value)) (tags : Chain) :
    Option (List (Value × Value) × Option Err) :=
  morphMapGo rec tags (entries.map Prod.fst) entries

/-- `morpher.dive`: branch on the container kind; anything that is not a
sequence or a map fails with `InvalidDive`. -/
def dive (rec : Traverser) (orig : Value) (next : Chain) : Option (Value × Option Err) :=
  match orig with
  | .slice es =>
    match morphCollection rec es next with
    | none => none
    | some (es2, e) => some (.slice es2, e)
  | .mp m =>
    match morphMap rec m next with
    | none => none
    | some (m2, e) => some (.mp m2, e)
  | _ => some (orig, some (.invalidDive (kindName orig)))

/-- The chain-walking loop of `morpher.morphField`: `orig` is the unwrapped
stored value (`actualValue`), `w` the working copy (`newValue`); when `addr`
holds the two alias, so a successful transformation updates both.  A `dive`
node hands `actualValue` and the remaining chain to `dive` and stops the
loop; nodes without a transformer are skipped; the first error aborts. -/
def morphChain (rec : Traverser) (addr : Bool) : Value → Value → Chain →
    Option (Value × Option Err)
  | orig, _, .nil => some (orig, none)
  | orig, w, .node t tr p _ next =>
    if t = TagDive then dive rec orig next
    else match tr with
    | none => morphChain rec addr orig w next
    | some T =>
      match T.transform p w with
      | .error e => some (orig, some e)
      | .ok w2 => morphChain rec addr (if addr then w2 else orig) w2 next

/-- The field loop of `morpher.morphStruct`: run each descriptor entry
against its field, stopping at the first error; already-processed fields
keep their mutations.  A descriptor index outside the field list (possible
only when a cache collision supplied a foreign descriptor) makes Go panic
in `reflect.Value.Field`; this cache-free variant skips such an entry and
is used only on inputs where the index is provably in range — the panic is
modelled faithfully by `runFieldsSt` below. -/
def runFields (rec : Traverser) (addr : Bool) : StructDescr →
    List (Bool × String × Value) → Option (List (Bool × String × Value) × Option Err)
  | [], fs => some (fs, none)
  | (i, ch) :: rest, fs =>
    match fs[i]? with
    | none => runFields rec addr rest fs
    | some (exported, rawTag, fv) =>
      match rec addr fv ch with
      | none => none
      | some (fv2, some e) => some (fs.set i (exported, rawTag, fv2), some e)
      | some (fv2, none) => runFields rec addr rest (fs.set i (exported, rawTag, fv2))

/-- `morpher.morphStruct` with the descriptor cache idealised away: the
descriptor is rebuilt from the struct's own fields at every encounter.
This coincides with the real shared-cache recursion exactly when every
cache lookup the run performs returns the descriptor the struct would build
for itself; the shared cache, with its key collisions and the resulting
reflect panics, is modelled faithfully by `morphStructSt` below, and this
variant is used only on inputs where the two provably agree. -/
def morphStruct (R : Registry) (rec : Traverser) (addr : Bool) (pkg name : String)
    (fields : List (Bool × String × Value)) : Option (Value × Option Err) :=
  match buildStructCache R fields with
  | .error e => some (.structv pkg name fields, some e)
  | .ok sc =>
    match runFields rec addr sc fields with
    | none => none
    | some (fs2, e) => some (.structv pkg name fs2, e)

/-- `morpher.morphField`, indexed by fuel.  `getActualValue` is the
unwrapping of `ptr`/`iface` layers (dereferencing a non-nil pointer lands on
addressable storage, entering an `interface{}` does not); a struct core
recurses into `morphStruct` regardless of the chain; a nil pointer core runs
the chain against a fresh zero element that never reaches the original; any
other core runs the chain with a working copy that aliases the original
exactly when `addr` holds. -/
def morphField (R : Registry) : Nat → Traverser
  | 0, _, _, _ => none
  | n + 1, addr, v, c =>
    match v with
    | .ptr z (some w) =>
      match morphField R n true w c with
      | none => none
      | some (w2, e) => some (.ptr z (some w2), e)
    | .iface (some w) =>
      match morphField R n false w c with
      | none => none
      | some (w2, e) => some (.iface (some w2), e)
    | .ptr z none => morphChain (morphField R n) false v z c
    | .structv p nm fs => morphStruct R (morphField R n) addr p nm fs
    | _ => morphChain (morphField R n) addr v v c

/-! ## Shared state: registry, descriptor cache, entry points (`morph.go`,
`cache.go`) -/

/-- The cache key of `cache.getStructCache`:
`fmt.Sprintf("%s/%s", t.PkgPath(), t.Name())`. -/
def structKey (pkg name : String) : String := pkg ++ "/" ++ name

/-- The shared state of a `morpher`: the transformer registry and the struct
descriptor cache (the parameter store is compiled into the chains). -/
structure MorphState where
  transformers : Registry
  structsCache : List (String × StructDescr)

/-- `cache.getStructCache`: fast-path lookup under the key; on a miss build
the descriptor from the value's own fields and store it (build failures are
not cached). -/
def getStructCache (st : MorphState) (pkg name : String)
    (fields : List (Bool × String × Value)) : Except Err (StructDescr × MorphState) :=
  match st.structsCache.lookup (structKey pkg name) with
  | some sc => .ok (sc, st)
  | none => do
    let sc ← buildStructCache st.transformers fields
    .ok (sc, ⟨st.transformers, st.structsCache ++ [(structKey pkg name, sc)]⟩)

/-- `morpher.Register`: trim the tag, reject blank names, reserved
navigational names and absent transformers, then overwrite the registry
entry. -/
def register (st : MorphState) (tag : String) (tr : Option FieldTransformer) :
    Except Err MorphState :=
  let tag2 := goTrimSpace tag
  if tag2.length = 0 then .error .invalidTagName
  else if navigationalTags tag2 then .error (.reservedTagOverride tag2)
  else match tr with
    | none => .error .invalidTransformer
    | some t => .ok ⟨fun s => if s = tag2 then some t else st.transformers s, st.structsCache⟩

/-- `morpher.Struct`: the entry point.  `none` is an untyped nil argument
(`reflect.Kind` Invalid).  A non-pointer fails with `NotAPointer`; a nil
pointer or a pointee that is not a struct fails with `NotAStruct`; otherwise
the traversal runs on the pointee, using the cached descriptor for the
top-level shape. -/
def structTop (fuel : Nat) (st : MorphState) (arg : Option Value) :
    Option (Option Value × Option Err × MorphState) :=
  match arg with
  | none => some (none, some .notAPointer, st)
  | some v =>
    match v with
    | .ptr z (some (.structv p nm fs)) =>
      match getStructCache st p nm fs with
      | .error e => some (some v, some e, st)
      | .ok (sc, st2) =>
        match runFields (morphField st2.transformers fuel) true sc fs with
        | none => none
        | some (fs2, e) => some (some (.ptr z (some (.structv p nm fs2))), e, st2)
    | .ptr _ none => some (some v, some .notAStruct, st)
    | .ptr _ (some _) => some (some v, some .notAStruct, st)
    | _ => some (some v, some .notAPointer, st)

/-! ## Faithful shared-cache traversal

Go's `morphStruct` consults the shared `structsCache` at *every* level of
the recursion: a nested record looks its key up, reuses whatever descriptor
is stored there (built from a possibly different shape) and stores its own
freshly built descriptor on a miss.  A foreign descriptor can carry a field
index out of range for the current struct, on which `reflect.Value.Field`
panics.  The following engine mirrors that: the descriptor cache is
threaded through the traversal, and the out-of-range access is a distinct
`panic` outcome (the outer `Option` still models fuel exhaustion only). -/

inductive StRes (α : Type) where
  | panic : StRes α
  | ok (a : α) (e : Option Err) (cache : List (String × StructDescr)) : StRes α

/-- Forget the cache component (`panic` has no return value at all). -/
def StRes.out {α : Type} : StRes α → Option (α × Option Err)
  | .panic => none
  | .ok a e _ => some (a, e)

abbrev TraverserSt :=
  Bool → Value → Chain → List (String × StructDescr) → Option (StRes Value)

/-- `morpher.morphCollection` over the shared cache. -/
def morphCollectionSt (rec : TraverserSt) : List Value → Chain →
    List (String × StructDescr) → Option (StRes (List Value))
  | [], _, cache => some (.ok [] none cache)
  | v :: rest, tags, cache =>
    match rec true v tags cache with
    | none => none
    | some .panic => some .panic
    | some (.ok v2 (some e) cache2) => some (.ok (v2 :: rest) (some e) cache2)
    | some (.ok v2 none cache2) =>
      match morphCollectionSt rec rest tags cache2 with
      | none => none
      | some .panic => some .panic
      | some (.ok rest2 e cache3) => some (.ok (v2 :: rest2) e cache3)

/-- The loop of `morpher.morphMap` over the shared cache (see `morphMapGo`
for the stateless counterpart and the modelling notes). -/
def morphMapGoSt (rec : TraverserSt) (tags : Chain) :
    List Value → List (Value × Value) → List (String × StructDescr) →
    Option (StRes (List (Value × Value)))
  | [], m, cache => some (.ok m none cache)
  | k :: ks, m, cache =>
    match mapGet m k with
    | none => morphMapGoSt rec tags ks m cache
    | some v =>
      match shouldMorphKeys tags with
      | some (kc, next) =>
        match rec true k kc cache with
        | none => none
        | some .panic => some .panic
        | some (.ok _ (some e) cache2) => some (.ok (mapDel m k) (some e) cache2)
        | some (.ok k2 none cache2) =>
          match rec true v next cache2 with
          | none => none
          | some .panic => some .panic
          | some (.ok _ (some e) cache3) => some (.ok (mapDel m k) (some e) cache3)
          | some (.ok v2 none cache3) =>
            morphMapGoSt rec tags ks (mapSet (mapDel m k) k2 v2) cache3
      | none =>
        match rec true v tags cache with
        | none => none
        | some .panic => some .panic
        | some (.ok _ (some e) cache2) => some (.ok m (some e) cache2)
        | some (.ok v2 none cache2) => morphMapGoSt rec tags ks (mapSet m k v2) cache2

/-- `morpher.morphMap` over the shared cache. -/
def morphMapSt (rec : TraverserSt) (entries : List (Value × Value)) (tags : Chain)
    (cache : List (String × StructDescr)) : Option (StRes (List (Value × Value))) :=
  morphMapGoSt rec tags (entries.map Prod.fst) entries cache

/-- `morpher.dive` over the shared cache. -/
def diveSt (rec : TraverserSt) (orig : Value) (next : Chain)
    (cache : List (String × StructDescr)) : Option (StRes Value) :=
  match orig with
  | .slice es =>
    match morphCollectionSt rec es next cache with
    | none => none
    | some .panic => some .panic
    | some (.ok es2 e cache2) => some (.ok (.slice es2) e cache2)
  | .mp m =>
    match morphMapSt rec m next cache with
    | none => none
    | some .panic => some .panic
    | some (.ok m2 e cache2) => some (.ok (.mp m2) e cache2)
  | _ => some (.ok orig (some (.invalidDive (kindName orig))) cache)

/-- The chain-walking loop of `morpher.morphField` over the shared cache
(transformers never touch the cache; only a `dive` hands it on). -/
def morphChainSt (rec : TraverserSt) (addr : Bool) : Value → Value → Chain →
    List (String × StructDescr) → Option (StRes Value)
  | orig, _, .nil, cache => some (.ok orig none cache)
  | orig, w, .node t tr p _ next, cache =>
    if t = TagDive then diveSt rec orig next cache
    else match tr with
    | none => morphChainSt rec addr orig w next cache
    | some T =>
      match T.transform p w with
      | .error e => some (.ok orig (some e) cache)
      | .ok w2 => morphChainSt rec addr (if addr then w2 else orig) w2 next cache

/-- The field loop of `morpher.morphStruct` over the shared cache: a
descriptor index with no corresponding field is Go's
`reflect.Value.Field` panic. -/
def runFieldsSt (rec : TraverserSt) (addr : Bool) : StructDescr →
    List (Bool × String × Value) → List (String × StructDescr) →
    Option (StRes (List (Bool × String × Value)))
  | [], fs, cache => some (.ok fs none cache)
  | (i, ch) :: rest, fs, cache =>
    match fs[i]? with
    | none => some .panic
    | some (exported, rawTag, fv) =>
      match rec addr fv ch cache with
      | none => none
      | some .panic => some .panic
      | some (.ok fv2 (some e) cache2) =>
        some (.ok (fs.set i (exported, rawTag, fv2)) (some e) cache2)
      | some (.ok fv2 none cache2) =>
        runFieldsSt rec addr rest (fs.set i (exported, rawTag, fv2)) cache2

/-- `morpher.morphStruct` over the shared cache (`cache.getStructCache`
inlined): look the key up; on a miss build the descriptor from the struct's
own fields and append it (build failures are returned without storing);
then run the descriptor — whichever shape built it — over the fields. -/
def morphStructSt (R : Registry) (rec : TraverserSt) (addr : Bool) (p nm : String)
    (fields : List (Bool × String × Value)) (cache : List (String × StructDescr)) :
    Option (StRes Value) :=
  match cache.lookup (structKey p nm) with
  | some sc =>
    match runFieldsSt rec addr sc fields cache with
    | none => none
    | some .panic => some .panic
    | some (.ok fs2 e cache2) => some (.ok (.structv p nm fs2) e cache2)
  | none =>
    match buildStructCache R fields with
    | .error e => some (.ok (.structv p nm fields) (some e) cache)
    | .ok sc =>
      match runFieldsSt rec addr sc fields (cache ++ [(structKey p nm, sc)]) with
      | none => none
      | some .panic => some .panic
      | some (.ok fs2 e cache2) => some (.ok (.structv p nm fs2) e cache2)

/-- `morpher.morphField` over the shared cache, indexed by fuel. -/
def morphFieldSt (R : Registry) : Nat → TraverserSt
  | 0, _, _, _, _ => none
  | n + 1, addr, v, c, cache =>
    match v with
    | .ptr z (some w) =>
      match morphFieldSt R n true w c cache with
      | none => none
      | some .panic => some .panic
      | some (.ok w2 e cache2) => some (.ok (.ptr z (some w2)) e cache2)
    | .iface (some w) =>
      match morphFieldSt R n false w c cache with
      | none => none
      | some .panic => some .panic
      | some (.ok w2 e cache2) => some (.ok (.iface (some w2)) e cache2)
    | .ptr z none => morphChainSt (morphFieldSt R n) false v z c cache
    | .structv p nm fs => morphStructSt R (morphFieldSt R n) addr p nm fs cache
    | _ => morphChainSt (morphFieldSt R n) addr v v c cache

/-- `morpher.Struct` over the shared cache: the dispatch of `structTop`
with the struct pointee handed to the faithful `morphStructSt`. -/
def structTopSt (fuel : Nat) (R : Registry)
    (cache : List (String × StructDescr)) : Option Value → Option (StRes (Option Value))
  | none => some (.ok none (some .notAPointer) cache)
  | some (.ptr z (some (.structv p nm fs))) =>
    match morphStructSt R (morphFieldSt R fuel) true p nm fs cache with
    | none => none
    | some .panic => some .panic
    | some (.ok v2 e cache2) => some (.ok (some (.ptr z (some v2))) e cache2)
  | some (.ptr z none) => some (.ok (some (.ptr z none)) (some .notAStruct) cache)
  | some (.ptr z (some w)) => some (.ok (some (.ptr z (some w))) (some .notAStruct) cache)
  | some v => some (.ok (some v) (some .notAPointer) cache)

/-- The field indices `cache.buildStructCache` keeps, starting at `k`:
exported fields whose whole tag is not the ignore marker. -/
def eligibleIdxs : Nat → List (Bool × String × Value) → List Nat
  | _, [] => []
  | i, (exported, rawTag, _) :: rest =>
    if !exported then eligibleIdxs (i + 1) rest
    else if rawTag = TagIgnore then eligibleIdxs (i + 1) rest
    else i :: eligibleIdxs (i + 1) rest

/-- The descriptor an annotation-free shape compiles to: its eligible
indices, each with an absent chain. -/
def nilDescr (idxs : List Nat) : StructDescr := idxs.map (fun i => (i, Chain.nil))

/-! `fitsD D v` holds when every record shape in `v`'s tree (reached the way
the traversal reaches records) has exactly the eligible indices `D` assigns
to its cache key — i.e. `D` is a consistent descriptor assignment: two
shapes sharing a key agree on their descriptor, so a cache hit on a
foreign entry is indistinguishable from the shape's own descriptor. -/
mutual

def fitsD (D : String → List Nat) : Value → Bool
  | .ptr _ (some w) => fitsD D w
  | .iface (some w) => fitsD D w
  | .structv p nm fs =>
    decide (eligibleIdxs 0 fs = D (structKey p nm)) && fitsDFields D fs
  | _ => true

def fitsDFields (D : String → List Nat) : List (Bool × String × Value) → Bool
  | [] => true
  | f :: rest => fitsD D f.2.2 && fitsDFields D rest

end

/-- Every cached descriptor is the annotation-free descriptor `D` assigns
to its key. -/
def CacheFits (D : String → List Nat) (cache : List (String × StructDescr)) : Prop :=
  ∀ e ∈ cache, e.2 = nilDescr (D e.1)

/-! ## Trim idempotence (claim C9) -/

theorem goTrimSpaceList_eq_rdropWhile (l : List Char) :
    goTrimSpaceList l = (l.dropWhile goIsSpace).rdropWhile goIsSpace := by
  simp [goTrimSpaceList, List.rdropWhile]

/-- Once the leading white space is gone, trimming trailing white space
cannot expose new leading white space. -/
theorem dropWhile_rdropWhile_self {p : Char → Bool} {y : List Char}
    (hy : y.dropWhile p = y) : (y.rdropWhile p).dropWhile p = y.rdropWhile p := by
  rcases hz : y.rdropWhile p with _ | ⟨a, z'⟩
  · simp
  · obtain ⟨t, ht⟩ := List.rdropWhile_prefix (l := y) (p := p)
    rw [hz] at ht
    rw [← ht] at hy
    by_cases hpa : p a
    · exfalso
      rw [List.cons_append, List.dropWhile_cons, if_pos hpa] at hy
      have hle := ((z' ++ t).dropWhile_sublist (p := p)).length_le
      have h1 := congrArg List.length hy
      simp only [List.length_cons, List.cons_append] at h1
      omega
    · rw [List.dropWhile_cons, if_neg hpa]

theorem goTrimSpaceList_idempotent (l : List Char) :
    goTrimSpaceList (goTrimSpaceList l) = goTrimSpaceList l := by
  rw [goTrimSpaceList_eq_rdropWhile, goTrimSpaceList_eq_rdropWhile,
    dropWhile_rdropWhile_self (List.dropWhile_idempotent _ _),
    List.rdropWhile_idempotent, ← goTrimSpaceList_eq_rdropWhile]

theorem goTrimSpace_idempotent (s : String) :
    goTrimSpace (goTrimSpace s) = goTrimSpace s := by
  simp only [goTrimSpace, String.toList]
  exact congrArg String.mk (goTrimSpaceList_idempotent s.toList)

/-- C9: for every string value, the whitespace-trimming transformation is
idempotent: applying the trim transformer twice yields the same result as
applying it once. -/
theorem c9_trim_idempotent (s : String) :
    (trimTransform (Value.str s)).bind trimTransform = trimTransform (Value.str s) := by
  simp [trimTransform, Except.bind, goTrimSpace_idempotent]

/-! ## Write-back (claim C1)

In `morphField`, `getAssignableValue` returns the address of a local
`reflect.Value`, so the guard `newValue != actualValue` compares two distinct
pointers and is always true: the early `return` fires on every path and
`assignValue` (the copy-back of `util.go`) is unreachable.  Whenever the
working copy does not alias the original storage — a field reached through an
`interface{}` is the simplest case — the chain completes without error on
the working copy but the original field keeps its old value, contradicting
both the specified write-back and the code's own doc comment on
`FieldTransformer.Transform` ("is being updated after all the
transformations are done"). -/

/-- C1: counter-evidence for the write-back claim, evaluated on the code as
written.  For the record `{Data interface{} morph:"trim"}` holding `" x "`:
the trim transformer succeeds on the non-aliasing working copy (producing
`"x"`), yet processing returns success with the field unchanged — the final
working copy is never copied back into the original field. -/
theorem c1_interface_field_not_written_back :
    (structTop 3 ⟨defaultRegistry, []⟩
        (some (.ptr (.structv "p" "T" [(true, TagTrim, .iface none)])
          (some (.structv "p" "T" [(true, TagTrim, .iface (some (.str " x ")))]))))).map
        (fun r => (r.1, r.2.1)) =
      some (some (.ptr (.structv "p" "T" [(true, TagTrim, .iface none)])
          (some (.structv "p" "T" [(true, TagTrim, .iface (some (.str " x ")))]))),
        none) ∧
    trimTransform (Value.str " x ") = .ok (Value.str "x") ∧
    Value.str " x " ≠ Value.str "x" := by
  refine ⟨rfl, rfl, by decide⟩

/-! ## Integer parameter validation (claims C4) -/

/-- C4, counterexample: the `Cache` step of the integer-parameter
transformers does *not* fail on a negative raw parameter: `strconv.Atoi`
parses `"-1"` successfully and `-1` is cached.  (The negative value is only
rejected later, by the truncate `Transform` step.) -/
theorem c4_negative_param_cache_succeeds :
    truncateTransformer.cache "-1" = .ok (some (-1)) := by
  rfl

/-- C4, amended: `Cache` fails with `InvalidParameters` exactly when
`strconv.Atoi` fails — the raw parameter string is not a syntactically
valid integer (e.g. non-numeric), or its value does not fit the machine
`int` (range error); every successfully parsed value, negative ones
included, is in range and is cached, and the negative check is performed
by the truncate `Transform` step, which then fails with
`InvalidParameters`. -/
theorem c4_int_param_validation :
    (∀ s : String, goAtoi s = none →
      intParamCache s = .error (.invalidParameters [TagPrecision, s])) ∧
    (∀ (s : String) (i : Int), goAtoi s = some i →
      truncateTransformer.cache s = .ok (some i)) ∧
    (∀ (s : String) (i : Int), goAtoi s = some i →
      -(2 ^ 63) ≤ i ∧ i ≤ 2 ^ 63 - 1) ∧
    (∀ (l : Int) (s : String), l < 0 →
      truncateTransform (some l) (.str s) = .error (.invalidParameters [])) := by
  refine ⟨fun s h => ?_, fun s i h => ?_, fun s i h => ?_, fun l s h => ?_⟩
  · simp [intParamCache, h]
  · simp [truncateTransformer, intParamCache, h, Except.map]
  · unfold goAtoi at h
    split at h
    · split at h
      · rename_i hfit
        cases h
        simpa [intFits, decide_eq_true_eq] using hfit
      · cases h
    · cases h
  · simp [truncateTransform, h]

theorem c4_int_param_validation_witness :
    goAtoi "baba" = none ∧
    intParamCache "baba" = .error (.invalidParameters [TagPrecision, "baba"]) ∧
    goAtoi "99999999999999999999" = none ∧
    intParamCache "99999999999999999999" =
      .error (.invalidParameters [TagPrecision, "99999999999999999999"]) ∧
    goAtoi "-1" = some (-1) ∧
    truncateTransformer.cache "-1" = .ok (some (-1)) ∧
    (-(2 ^ 63) ≤ (-1 : Int) ∧ (-1 : Int) ≤ 2 ^ 63 - 1) ∧
    ((-1 : Int) < 0 ∧
      truncateTransform (some (-1)) (.str "123456") = .error (.invalidParameters [])) :=
  ⟨rfl, c4_int_param_validation.1 "baba" rfl,
    rfl, c4_int_param_validation.1 "99999999999999999999" rfl,
    rfl, c4_int_param_validation.2.1 "-1" (-1) rfl,
    c4_int_param_validation.2.2.1 "-1" (-1) rfl,
    by decide, c4_int_param_validation.2.2.2 (-1) "123456" (by decide)⟩

/-! ## Entry-point contract (claim C8) -/

/-- C8: the entry point fails with `NotAPointer` on a nil or non-pointer
argument, with `NotAStruct` on a nil pointer or a pointee that is not a
struct, and otherwise runs the traversal and returns its first error (or
success). -/
theorem c8_entry_contract :
    (∀ (fuel : Nat) (st : MorphState),
      structTop fuel st none = some (none, some .notAPointer, st)) ∧
    (∀ (fuel : Nat) (st : MorphState) (v : Value),
      (∀ z w, v ≠ .ptr z w) →
      structTop fuel st (some v) = some (some v, some .notAPointer, st)) ∧
    (∀ (fuel : Nat) (st : MorphState) (z : Value),
      structTop fuel st (some (.ptr z none)) =
        some (some (.ptr z none), some .notAStruct, st)) ∧
    (∀ (fuel : Nat) (st : MorphState) (z w : Value),
      (∀ p nm fs, w ≠ .structv p nm fs) →
      structTop fuel st (some (.ptr z (some w))) =
        some (some (.ptr z (some w)), some .notAStruct, st)) ∧
    (∀ (fuel : Nat) (st : MorphState) (z : Value) (p nm : String)
        (fs : List (Bool × String × Value)),
      structTop fuel st (some (.ptr z (some (.structv p nm fs)))) =
        match getStructCache st p nm fs with
        | .error e => some (some (.ptr z (some (.structv p nm fs))), some e, st)
        | .ok (sc, st2) =>
          (runFields (morphField st2.transformers fuel) true sc fs).map
            (fun r => (some (.ptr z (some (.structv p nm r.1))), r.2, st2))) := by
  refine ⟨fun fuel st => rfl, fun fuel st v hv => ?_, fun fuel st z => rfl,
    fun fuel st z w hw => ?_, fun fuel st z p nm fs => ?_⟩
  · cases v with
    | ptr z w => exact absurd rfl (hv z w)
    | _ => rfl
  · cases w with
    | structv p nm fs => exact absurd rfl (hw p nm fs)
    | _ => rfl
  · cases hg : getStructCache st p nm fs with
    | error e => simp [structTop, hg]
    | ok r =>
      obtain ⟨sc, st2⟩ := r
      cases hr : runFields (morphField st2.transformers fuel) true sc fs with
      | none => simp [structTop, hg, hr]
      | some r2 => simp [structTop, hg, hr]

/-! ## Shape descriptor cache keying (claim C2)

`getStructCache` keys the descriptor cache by `PkgPath()/Name()` alone.  Two
structurally different shapes that share package path and type name (Go: two
local types of the same name in different functions, or two anonymous types,
which both have `Name() == ""`) collide: the second one is processed with
the first one's descriptor. -/

/-- A record of shape `p.T { F string morph:"trim" }`. -/
def c2recordA : Value :=
  .ptr (.structv "p" "T" [(true, TagTrim, .str "")])
    (some (.structv "p" "T" [(true, TagTrim, .str " a ")]))

/-- A record of a *different* local shape also named `p.T`, with one untagged
int field. -/
def c2recordB : Value :=
  .ptr (.structv "p" "T" [(true, "", .int 0)])
    (some (.structv "p" "T" [(true, "", .int 7)]))

/-- C2, counterexample: processing a record of shape A and then, through the
same morpher, a record of the structurally different shape B that shares the
cache key `p/T` applies A's compiled descriptor (a `trim` chain at field 0)
to B's int field and fails with `UnexpectedValue` — while a fresh morpher
processes B without error.  So the cache key does not uniquely identify the
shape, and a record can be processed with a descriptor built from a
different shape. -/
theorem c2_shape_key_collision :
    ((structTop 3 ⟨defaultRegistry, []⟩ (some c2recordA)).bind
        (fun r => structTop 3 r.2.2 (some c2recordB))).map (fun r => (r.1, r.2.1)) =
      some (some c2recordB, some (.unexpectedValue TagTrim "int")) ∧
    (structTop 3 ⟨defaultRegistry, []⟩ (some c2recordB)).map (fun r => (r.1, r.2.1)) =
      some (some c2recordB, none) :=
  ⟨rfl, rfl⟩

/-- C2, amended: the descriptor cache is keyed by `pkgPath/typeName` only.
On the first encounter of a key the descriptor is built from that record's
own fields; any later lookup under the same key returns the cached
descriptor unchanged, regardless of the actual fields of the record being
processed. -/
theorem c2_cache_key_behaviour :
    (∀ (st : MorphState) (p n : String) (fs : List (Bool × String × Value)),
      st.structsCache.lookup (structKey p n) = none →
      getStructCache st p n fs =
        (buildStructCache st.transformers fs).map
          (fun sc => (sc, ⟨st.transformers, st.structsCache ++ [(structKey p n, sc)]⟩))) ∧
    (∀ (st : MorphState) (p n : String) (fs fs2 : List (Bool × String × Value))
        (sc : StructDescr),
      st.structsCache.lookup (structKey p n) = some sc →
      getStructCache st p n fs = .ok (sc, st) ∧ getStructCache st p n fs2 = .ok (sc, st)) := by
  constructor
  · intro st p n fs h
    unfold getStructCache
    rw [h]
    cases buildStructCache st.transformers fs with
    | error e => rfl
    | ok sc => rfl
  · intro st p n fs fs2 sc h
    constructor <;> (unfold getStructCache; rw [h])

theorem c2_cache_key_behaviour_witness :
    getStructCache ⟨defaultRegistry, []⟩ "p" "T" [(true, "", .int 0)] =
      (buildStructCache defaultRegistry [(true, "", .int 0)]).map
        (fun sc => (sc, ⟨defaultRegistry, [(structKey "p" "T", sc)]⟩)) ∧
    (getStructCache ⟨defaultRegistry, [(structKey "p" "T", [(0, Chain.nil)])]⟩ "p" "T"
        [(true, "", .int 0)] =
      .ok ([(0, Chain.nil)], ⟨defaultRegistry, [(structKey "p" "T", [(0, Chain.nil)])]⟩) ∧
    getStructCache ⟨defaultRegistry, [(structKey "p" "T", [(0, Chain.nil)])]⟩ "p" "T"
        [(true, TagTrim, .str " a "), (true, "", .int 1)] =
      .ok ([(0, Chain.nil)], ⟨defaultRegistry, [(structKey "p" "T", [(0, Chain.nil)])]⟩)) :=
  ⟨c2_cache_key_behaviour.1 ⟨defaultRegistry, []⟩ "p" "T" [(true, "", .int 0)] rfl,
    c2_cache_key_behaviour.2 ⟨defaultRegistry, [(structKey "p" "T", [(0, Chain.nil)])]⟩
      "p" "T" [(true, "", .int 0)] [(true, TagTrim, .str " a "), (true, "", .int 1)]
      [(0, Chain.nil)] rfl⟩

/-! ## Compilation of the `keys` sub-chain (claim C5) -/

theorem exceptBind_ok {α β : Type} (a : α) (f : α → Except Err β) :
    (do let x ← (.ok a : Except Err α); f x) = f a := rfl

theorem exceptBind_error {α β : Type} (e : Err) (f : α → Except Err β) :
    (do let x ← (.error e : Except Err α); f x) = .error e := rfl

/-- Unfolding `buildChainTokens` on a token that does not start a key
sub-chain. -/
theorem buildChainTokens_cons_plain (R : Registry) (tok : String) (rest : List String)
    (h : ¬(tok = TagKeys ∧ rest ≠ [])) :
    buildChainTokens R (tok :: rest) = (do
      let nd ← buildTagCache R tok
      let tail ← buildChainTokens R rest
      pure (Chain.node nd.1 nd.2.1 nd.2.2 .nil tail)) := by
  simp only [buildChainTokens]
  cases hnd : buildTagCache R tok with
  | error e => rfl
  | ok nd =>
    simp only [exceptBind_ok]
    rw [if_neg h]
    rfl

/-- A `keys` token resolves as a navigation-only node. -/
theorem buildTagCache_keys (R : Registry) (hR : R TagKeys = none) :
    buildTagCache R TagKeys = .ok (TagKeys, none, none) := by
  have h1 : R (paramsSplit TagKeys).1 = none := hR
  simp only [buildTagCache, h1]
  rfl

/-- Unfolding `buildChainTokens` on a `keys` token followed by more
tokens. -/
theorem buildChainTokens_cons_keys (R : Registry) (rest : List String)
    (hne : rest ≠ []) (hR : R TagKeys = none) :
    buildChainTokens R (TagKeys :: rest) = (do
      let st ← buildKeysTail R rest
      pure (Chain.node TagKeys none none st.1 st.2)) := by
  simp only [buildChainTokens]
  rw [buildTagCache_keys R hR]
  simp only [exceptBind_ok]
  rw [if_pos (show True ∧ rest ≠ [] from ⟨trivial, hne⟩)]
  rfl

/-- Tokens that are not a raw `keys` token compile to plain nodes appended
in front of the rest of the chain. -/
theorem buildChainTokens_append (R : Registry) (ks rest : List String)
    (hks : TagKeys ∉ ks) :
    buildChainTokens R (ks ++ rest) = (do
      let c1 ← buildKeysChain R ks
      let c2 ← buildChainTokens R rest
      pure (c1.append c2)) := by
  induction ks with
  | nil =>
    simp only [List.nil_append, buildKeysChain, exceptBind_ok]
    cases buildChainTokens R rest with
    | error e => rfl
    | ok c => rfl
  | cons tok ks ih =>
    have htok : ¬(tok = TagKeys) := fun h => hks (by simp [h])
    have hks2 : TagKeys ∉ ks := fun h => hks (by simp [h])
    rw [List.cons_append,
      buildChainTokens_cons_plain R tok (ks ++ rest) (fun hc => htok hc.1),
      ih hks2]
    simp only [buildKeysChain]
    cases buildTagCache R tok with
    | error e => rfl
    | ok nd =>
      simp only [exceptBind_ok]
      cases buildKeysChain R ks with
      | error e => rfl
      | ok c1 =>
        simp only [exceptBind_ok]
        cases buildChainTokens R rest with
        | error e => rfl
        | ok c2 => rfl

/-- The inner loop stops at the first raw `exit` token, which is consumed,
and the outer build resumes on the tokens after it. -/
theorem buildKeysTail_exit (R : Registry) (mid post : List String)
    (hmid : TagExit ∉ mid) :
    buildKeysTail R (mid ++ TagExit :: post) = (do
      let sub ← buildKeysChain R mid
      let tail ← buildChainTokens R post
      pure (sub, tail)) := by
  induction mid with
  | nil =>
    simp only [List.nil_append, buildKeysTail, buildKeysChain, exceptBind_ok]
    rw [if_pos trivial]
    rfl
  | cons tok mid ih =>
    have htok : ¬(tok = TagExit) := fun h => hmid (by simp [h])
    have hmid2 : TagExit ∉ mid := fun h => hmid (by simp [h])
    rw [List.cons_append, buildKeysTail, if_neg htok, ih hmid2]
    simp only [buildKeysChain]
    cases buildTagCache R tok with
    | error e => rfl
    | ok nd =>
      simp only [exceptBind_ok]
      cases buildKeysChain R mid with
      | error e => rfl
      | ok sub =>
        simp only [exceptBind_ok]
        cases buildChainTokens R post with
        | error e => rfl
        | ok c => rfl

/-- Without an `exit` token the inner loop consumes everything and the outer
chain ends. -/
theorem buildKeysTail_no_exit (R : Registry) (mid : List String)
    (hmid : TagExit ∉ mid) :
    buildKeysTail R mid = (do
      let sub ← buildKeysChain R mid
      pure (sub, Chain.nil)) := by
  induction mid with
  | nil => rfl
  | cons tok mid ih =>
    have htok : ¬(tok = TagExit) := fun h => hmid (by simp [h])
    have hmid2 : TagExit ∉ mid := fun h => hmid (by simp [h])
    rw [buildKeysTail, if_neg htok, ih hmid2]
    simp only [buildKeysChain]
    cases buildTagCache R tok with
    | error e => rfl
    | ok nd =>
      simp only [exceptBind_ok]
      cases buildKeysChain R mid with
      | error e => rfl
      | ok sub => rfl

/-- C5: in a token list where the first (raw) `keys` token is followed by
further tokens, all subsequent tokens up to the first `exit` (exclusive) are
consumed into a separate sub-chain attached to the `keys` node; the outer
chain resumes after the consumed `exit`, or ends if there is none; a `keys`
token with no following tokens gets a nil key-chain. -/
theorem c5_keys_subchain_compilation :
    (∀ (R : Registry) (ks mid post : List String), R TagKeys = none →
      TagKeys ∉ ks → TagExit ∉ mid →
      buildChainTokens R (ks ++ TagKeys :: (mid ++ TagExit :: post)) = (do
        let c1 ← buildKeysChain R ks
        let sub ← buildKeysChain R mid
        let tail ← buildChainTokens R post
        pure (c1.append (.node TagKeys none none sub tail)))) ∧
    (∀ (R : Registry) (ks mid : List String), R TagKeys = none →
      TagKeys ∉ ks → TagExit ∉ mid → mid ≠ [] →
      buildChainTokens R (ks ++ TagKeys :: mid) = (do
        let c1 ← buildKeysChain R ks
        let sub ← buildKeysChain R mid
        pure (c1.append (.node TagKeys none none sub .nil)))) ∧
    (∀ (R : Registry) (ks : List String), R TagKeys = none → TagKeys ∉ ks →
      buildChainTokens R (ks ++ [TagKeys]) = (do
        let c1 ← buildKeysChain R ks
        pure (c1.append (.node TagKeys none none .nil .nil)))) := by
  refine ⟨fun R ks mid post hR hks hmid => ?_, fun R ks mid hR hks hmid hne => ?_,
    fun R ks hR hks => ?_⟩
  · rw [buildChainTokens_append R ks _ hks,
      buildChainTokens_cons_keys R _ (by simp) hR,
      buildKeysTail_exit R mid post hmid]
    cases buildKeysChain R ks with
    | error e => rfl
    | ok c1 =>
      simp only [exceptBind_ok]
      cases buildKeysChain R mid with
      | error e => rfl
      | ok sub =>
        simp only [exceptBind_ok]
        cases buildChainTokens R post with
        | error e => rfl
        | ok c => rfl
  · rw [buildChainTokens_append R ks _ hks,
      buildChainTokens_cons_keys R _ hne hR,
      buildKeysTail_no_exit R mid hmid]
    cases buildKeysChain R ks with
    | error e => rfl
    | ok c1 =>
      simp only [exceptBind_ok]
      cases buildKeysChain R mid with
      | error e => rfl
      | ok sub => rfl
  · rw [buildChainTokens_append R ks _ hks,
      buildChainTokens_cons_plain R TagKeys [] (by simp)]
    rw [buildTagCache_keys R hR]
    cases buildKeysChain R ks with
    | error e => rfl
    | ok c1 => rfl

theorem c5_keys_subchain_compilation_witness :
    buildTagsCache defaultRegistry "trim,keys,lower,exit,upper" =
      .ok (.node TagTrim (some trimTransformer) none .nil
        (.node TagKeys none none
          (.node TagLower (some toLowerTransformer) none .nil .nil)
          (.node TagUpper (some toUpperTransformer) none .nil .nil))) ∧
    buildTagsCache defaultRegistry "trim,keys,lower" =
      .ok (.node TagTrim (some trimTransformer) none .nil
        (.node TagKeys none none
          (.node TagLower (some toLowerTransformer) none .nil .nil) .nil)) ∧
    buildTagsCache defaultRegistry "trim,keys" =
      .ok (.node TagTrim (some trimTransformer) none .nil
        (.node TagKeys none none .nil .nil)) :=
  ⟨c5_keys_subchain_compilation.1 defaultRegistry ["trim"] ["lower"] ["upper"]
      rfl (by decide) (by decide),
    c5_keys_subchain_compilation.2.1 defaultRegistry ["trim"] ["lower"]
      rfl (by decide) (by decide) (by decide),
    c5_keys_subchain_compilation.2.2 defaultRegistry ["trim"] rfl (by decide)⟩

/-! ## Fail-fast element processing (claim C6) -/

/-- C6: for a sequence dived into with remainder chain `X`, the chain is
applied to each element independently in index order; if every element
succeeds the result is the element-wise image, and the first element error
aborts the whole field with that error, keeping the mutations of the
elements before (and the partial mutation of) the failing element while the
elements after it are not processed.  The third conjunct ties
`morphCollection` to a field chain of the form `dive,X`. -/
theorem c6_collection_fail_fast :
    (∀ (rec : Traverser) (tags : Chain) (f : Value → Value) (elems : List Value),
      (∀ v ∈ elems, rec true v tags = some (f v, none)) →
      morphCollection rec elems tags = some (elems.map f, none)) ∧
    (∀ (rec : Traverser) (tags : Chain) (f : Value → Value) (pre post : List Value)
        (x x2 : Value) (e : Err),
      (∀ v ∈ pre, rec true v tags = some (f v, none)) →
      rec true x tags = some (x2, some e) →
      morphCollection rec (pre ++ x :: post) tags =
        some (pre.map f ++ x2 :: post, some e)) ∧
    (∀ (R : Registry) (n : Nat) (addr : Bool) (es : List Value) (X : Chain),
      morphField R (n + 1) addr (.slice es) (.node TagDive none none .nil X) =
        match morphCollection (morphField R n) es X with
        | none => none
        | some r => some (.slice r.1, r.2)) := by
  refine ⟨fun rec tags f elems hall => ?_, fun rec tags f pre post x x2 e hpre hx => ?_,
    fun R n addr es X => ?_⟩
  · induction elems with
    | nil => rfl
    | cons v rest ih =>
      rw [morphCollection, hall v (by simp),
        ih (fun w hw => hall w (by simp [hw]))]
      rfl
  · induction pre with
    | nil => simp [morphCollection, hx]
    | cons v rest ih =>
      rw [List.cons_append, morphCollection, hpre v (by simp),
        ih (fun w hw => hpre w (by simp [hw]))]
      rfl
  · show morphChain (morphField R n) addr (.slice es) (.slice es)
        (.node TagDive none none .nil X) = _
    rw [morphChain, if_pos rfl]
    show dive (morphField R n) (.slice es) X = _
    simp only [dive]
    cases morphCollection (morphField R n) es X with
    | none => rfl
    | some r => rfl

theorem c6_collection_fail_fast_witness :
    morphCollection (morphField defaultRegistry 5)
        [.str " a ", .int 5, .str " b "]
        (.node TagTrim (some trimTransformer) none .nil .nil) =
      some ([.str "a", .int 5, .str " b "], some (.unexpectedValue TagTrim "int")) := by
  have h := c6_collection_fail_fast.2.1 (morphField defaultRegistry 5)
    (.node TagTrim (some trimTransformer) none .nil .nil)
    (fun v => match v with | .str s => .str (goTrimSpace s) | v => v)
    [.str " a "] [.str " b "] (.int 5) (.int 5) (.unexpectedValue TagTrim "int")
    (by intro v hv; simp at hv; subst hv; rfl) rfl
  exact h

/-! ## Identity on unannotated records (claim C7) -/

/-! `noAnnot v` states that no field of any record inside `v` (reached the
way the traversal reaches records: through pointers, interfaces and nested
records) carries an annotation that produces a token: every exported
field's tag string splits into no tokens (it is empty or consists only of
separators).  `adepth v` bounds the recursion depth (and hence the fuel)
the traversal needs on such a value. -/
mutual

def noAnnot : Value → Bool
  | .ptr _ (some w) => noAnnot w
  | .iface (some w) => noAnnot w
  | .structv _ _ fs => noAnnotFields fs
  | _ => true

def noAnnotFields : List (Bool × String × Value) → Bool
  | [] => true
  | (e, t, v) :: rest => (!e || splitTags t == []) && noAnnot v && noAnnotFields rest

end

mutual

def adepth : Value → Nat
  | .ptr _ (some w) => adepth w + 1
  | .iface (some w) => adepth w + 1
  | .structv _ _ fs => adepthFields fs + 1
  | _ => 1

def adepthFields : List (Bool × String × Value) → Nat
  | [] => 0
  | f :: rest => max (adepth f.2.2) (adepthFields rest)

end

theorem adepth_pos (v : Value) : 1 ≤ adepth v := by
  cases v with
  | ptr z w => cases w <;> simp [adepth]
  | iface w => cases w <;> simp [adepth]
  | _ => simp [adepth]

theorem adepthFields_le {fs : List (Bool × String × Value)}
    {f : Bool × String × Value} (hf : f ∈ fs) : adepth f.2.2 ≤ adepthFields fs := by
  induction fs with
  | nil => cases hf
  | cons g rest ih =>
    rcases List.mem_cons.1 hf with h | h
    · subst h; simp [adepthFields]
    · simp [adepthFields]
      exact Or.inr (ih h)

theorem noAnnotFields_spec {fs : List (Bool × String × Value)}
    {f : Bool × String × Value} (hfs : noAnnotFields fs = true) (hf : f ∈ fs) :
    (f.1 = true → splitTags f.2.1 = []) ∧ noAnnot f.2.2 = true := by
  induction fs with
  | nil => cases hf
  | cons g rest ih =>
    obtain ⟨e, t, v⟩ := g
    simp only [noAnnotFields, Bool.and_eq_true, Bool.or_eq_true] at hfs
    rcases List.mem_cons.1 hf with h | h
    · subst h
      refine ⟨fun he => ?_, hfs.1.2⟩
      have he2 : e = true := he
      rcases hfs.1.1 with h1 | h1
      · rw [he2] at h1; simp at h1
      · exact beq_iff_eq.1 h1
    · exact ih hfs.2 h

/-- `l.set i a = l` when `a` is already the element at `i`. -/
theorem set_getElem_self {α : Type} :
    ∀ (l : List α) (i : Nat) (a : α), l[i]? = some a → l.set i a = l
  | [], i, a, h => by simp at h
  | x :: xs, 0, a, h => by
    simp only [List.getElem?_cons_zero, Option.some.injEq] at h
    simp [h]
  | x :: xs, i + 1, a, h => by
    simp only [List.getElem?_cons_succ] at h
    simp [set_getElem_self xs i a h]

/-- Running a descriptor consisting only of nil chains against fields on
which the traverser is the identity leaves the fields unchanged. -/
theorem runFields_id (rec : Traverser) (addr : Bool) :
    ∀ (sc : StructDescr) (fs : List (Bool × String × Value)),
      (∀ e ∈ sc, e.2 = Chain.nil) →
      (∀ f ∈ fs, rec addr f.2.2 Chain.nil = some (f.2.2, none)) →
      runFields rec addr sc fs = some (fs, none) := by
  intro sc
  induction sc with
  | nil => intro fs _ _; rfl
  | cons e rest ih =>
    intro fs hsc hrec
    obtain ⟨i, ch⟩ := e
    have hch : ch = Chain.nil := hsc (i, ch) (by simp)
    subst hch
    cases hfi : fs[i]? with
    | none =>
      simp only [runFields, hfi]
      exact ih fs (fun e he => hsc e (by simp [he])) hrec
    | some ent =>
      obtain ⟨ex, tg, fv⟩ := ent
      have hmem : (ex, tg, fv) ∈ fs := List.getElem?_mem hfi
      have hr := hrec (ex, tg, fv) hmem
      simp only [runFields, hfi, hr, set_getElem_self fs i (ex, tg, fv) hfi]
      exact ih fs (fun e he => hsc e (by simp [he])) hrec

/-- On fields whose exported tags produce no tokens, the descriptor builder
succeeds and every compiled chain is nil. -/
theorem buildStructCacheAux_nil_chains (R : Registry) :
    ∀ (fields : List (Bool × String × Value)) (k : Nat),
      (∀ f ∈ fields, f.1 = true → splitTags f.2.1 = []) →
      ∃ sc, buildStructCacheAux R k fields = .ok sc ∧ ∀ e ∈ sc, e.2 = Chain.nil := by
  intro fields
  induction fields with
  | nil => intro k _; exact ⟨[], rfl, by simp⟩
  | cons g rest ih =>
    intro k hf
    obtain ⟨e, t, v⟩ := g
    obtain ⟨sc, hsc, hnil⟩ := ih (k + 1) (fun f hf2 => hf f (by simp [hf2]))
    by_cases he : e = true
    · have ht : splitTags t = [] := hf (e, t, v) (by simp) he
      by_cases hig : t = TagIgnore
      · rw [buildStructCacheAux, if_neg (by simp [he]), if_pos hig]
        exact ⟨sc, hsc, hnil⟩
      · have hch : (if t.length > 0 then buildTagsCache R t
            else (.ok Chain.nil : Except Err Chain)) = .ok Chain.nil := by
          by_cases hl : t.length > 0
          · rw [if_pos hl]
            unfold buildTagsCache
            rw [ht]
            rfl
          · rw [if_neg hl]
        refine ⟨(k, Chain.nil) :: sc, ?_, ?_⟩
        · rw [buildStructCacheAux, if_neg (by simp [he]), if_neg hig]
          simp only [hch, hsc]
        · intro e2 he2
          rcases List.mem_cons.1 he2 with h | h
          · rw [h]
          · exact hnil e2 h
    · rw [buildStructCacheAux, if_pos (by simp [he])]
      exact ⟨sc, hsc, hnil⟩

/-! The original identity claim fails on the real shared-cache recursion:
anonymous struct types all have `PkgPath() = ""` and `Name() = ""`, so two
differently-shaped anonymous record fields share the cache key `"/"`; the
second is processed with the first's descriptor, and a descriptor index
beyond its field count panics in `reflect.Value.Field`.  The counterexample
computes that panic; the amended theorem proves the identity whenever some
descriptor assignment `D` fits every shape in the tree (`fitsD`) and every
pre-existing cache entry (`CacheFits`) — in particular whenever same-key
shapes agree on their eligible fields. -/

def c7anonA : Value := .structv "" "" [(true, "", .str "a"), (true, "", .str "b")]

def c7anonB : Value := .structv "" "" [(true, "", .str "c")]

def c7colrec : Value := .structv "p" "T" [(true, "", c7anonA), (true, "", c7anonB)]

/-- C7 (counterexample): an annotation-free record holding a two-field and
a one-field anonymous record, both cached under the key `"/"`: the first
stores its two-index descriptor, the second reuses it and the traversal
panics on field index 1 (out of range for one field) instead of returning
the record unchanged. -/
theorem c7_anon_collision_panics :
    noAnnot c7colrec = true ∧
    structTopSt 4 defaultRegistry [] (some (.ptr (.str "") (some c7colrec))) =
      some .panic :=
  ⟨by decide, rfl⟩

theorem fitsDFields_spec {D : String → List Nat} {fs : List (Bool × String × Value)}
    {f : Bool × String × Value} (hfs : fitsDFields D fs = true) (hf : f ∈ fs) :
    fitsD D f.2.2 = true := by
  induction fs with
  | nil => cases hf
  | cons g rest ih =>
    simp only [fitsDFields, Bool.and_eq_true] at hfs
    rcases List.mem_cons.1 hf with h | h
    · subst h; exact hfs.1
    · exact ih hfs.2 h

theorem lookup_mem : ∀ (l : List (String × StructDescr)) (k : String) (v : StructDescr),
    l.lookup k = some v → (k, v) ∈ l := by
  intro l
  induction l with
  | nil => intro k v h; cases h
  | cons e rest ih =>
    intro k v h
    obtain ⟨k2, v2⟩ := e
    rw [List.lookup] at h
    split at h
    · rename_i hbeq
      cases h
      have hk : k = k2 := by simpa using hbeq
      subst hk
      exact List.mem_cons_self _ _
    · exact List.mem_cons_of_mem _ (ih k v h)

/-- On fields whose exported tags produce no tokens, the descriptor builder
produces exactly the annotation-free descriptor. -/
theorem buildStructCacheAux_noAnnot (R : Registry) :
    ∀ (fields : List (Bool × String × Value)) (k : Nat),
      (∀ f ∈ fields, f.1 = true → splitTags f.2.1 = []) →
      buildStructCacheAux R k fields = .ok (nilDescr (eligibleIdxs k fields)) := by
  intro fields
  induction fields with
  | nil => intro k _; rfl
  | cons g rest ih =>
    intro k hf
    obtain ⟨e, t, v⟩ := g
    have htail := ih (k + 1) (fun f hf2 => hf f (by simp [hf2]))
    by_cases he : e = true
    · subst he
      by_cases hig : t = TagIgnore
      · rw [buildStructCacheAux, if_neg (by simp), if_pos hig, htail,
          show eligibleIdxs k ((true, t, v) :: rest) = eligibleIdxs (k + 1) rest from by
            rw [eligibleIdxs, if_neg (by simp), if_pos hig]]
      · have ht : splitTags t = [] := hf (true, t, v) (by simp) rfl
        have hch : (if t.length > 0 then buildTagsCache R t
            else (.ok Chain.nil : Except Err Chain)) = .ok Chain.nil := by
          by_cases hl : t.length > 0
          · rw [if_pos hl]
            unfold buildTagsCache
            rw [ht]
            rfl
          · rw [if_neg hl]
        rw [buildStructCacheAux, if_neg (by simp), if_neg hig]
        simp only [hch, htail]
        rw [show eligibleIdxs k ((true, t, v) :: rest) = k :: eligibleIdxs (k + 1) rest
          from by rw [eligibleIdxs, if_neg (by simp), if_neg hig]]
        rfl
    · have he2 : e = false := by
        simp only [Bool.not_eq_true] at he
        exact he
      subst he2
      rw [buildStructCacheAux, if_pos (by simp), htail,
        show eligibleIdxs k ((false, t, v) :: rest) = eligibleIdxs (k + 1) rest from by
          rw [eligibleIdxs, if_pos (by simp)]]

/-- Eligible indices starting at `k` stay within `k + fields.length`. -/
theorem eligibleIdxs_mem_lt : ∀ (fs : List (Bool × String × Value)) (k i : Nat),
    i ∈ eligibleIdxs k fs → k ≤ i ∧ i < k + fs.length := by
  intro fs
  induction fs with
  | nil =>
    intro k i h
    simp [eligibleIdxs] at h
  | cons g rest ih =>
    intro k i h
    obtain ⟨e, t, v⟩ := g
    rw [eligibleIdxs] at h
    split at h
    · have := ih (k + 1) i h
      simp only [List.length_cons]
      omega
    · split at h
      · have := ih (k + 1) i h
        simp only [List.length_cons]
        omega
      · rcases List.mem_cons.1 h with h2 | h2
        · subst h2
          simp only [List.length_cons]
          omega
        · have := ih (k + 1) i h2
          simp only [List.length_cons]
          omega

/-- Running a nil-chain descriptor over fields on which the traverser is
the identity (while preserving a cache property `P`) leaves the fields
unchanged and preserves `P`; every descriptor index must have a field,
otherwise the run would panic. -/
theorem runFieldsSt_id (rec : TraverserSt) (addr : Bool)
    (P : List (String × StructDescr) → Prop) :
    ∀ (sc : StructDescr) (fs : List (Bool × String × Value))
      (cache : List (String × StructDescr)),
      (∀ e ∈ sc, e.2 = Chain.nil) →
      (∀ e ∈ sc, ∃ f, fs[e.1]? = some f) →
      (∀ f ∈ fs, ∀ cache2, P cache2 →
        ∃ cache3, rec addr f.2.2 Chain.nil cache2 = some (.ok f.2.2 none cache3) ∧
          P cache3) →
      P cache →
      ∃ cache2, runFieldsSt rec addr sc fs cache = some (.ok fs none cache2) ∧
        P cache2 := by
  intro sc
  induction sc with
  | nil => intro fs cache _ _ _ hP; exact ⟨cache, rfl, hP⟩
  | cons e rest ih =>
    intro fs cache hnil hidx hrec hP
    obtain ⟨i, ch⟩ := e
    have hch : ch = Chain.nil := hnil (i, ch) (by simp)
    subst hch
    obtain ⟨f, hfi⟩ := hidx (i, Chain.nil) (by simp)
    obtain ⟨ex, tg, fv⟩ := f
    have hmem : (ex, tg, fv) ∈ fs := List.getElem?_mem hfi
    obtain ⟨cache3, hr, hP3⟩ := hrec (ex, tg, fv) hmem cache hP
    have hset := set_getElem_self fs i (ex, tg, fv) hfi
    obtain ⟨cache4, hrun, hP4⟩ := ih fs cache3 (fun e he => hnil e (by simp [he]))
      (fun e he => hidx e (by simp [he])) hrec hP3
    refine ⟨cache4, ?_, hP4⟩
    simp only [runFieldsSt, hfi, hr, hset]
    exact hrun

/-- Processing a record shape through the shared cache is the identity when
the fields are untouched by the traverser, the shape fits the descriptor
assignment `D` and so does every cache entry: a hit returns a same-key
entry, which `D`-consistency forces to be the shape's own annotation-free
descriptor; a miss builds and stores exactly that descriptor. -/
theorem morphStructSt_noAnnot_id (R : Registry) (D : String → List Nat)
    (rec : TraverserSt) (addr : Bool) (p nm : String)
    (fs : List (Bool × String × Value)) (cache : List (String × StructDescr))
    (hfs : noAnnotFields fs = true)
    (hidx : eligibleIdxs 0 fs = D (structKey p nm))
    (hrec : ∀ f ∈ fs, ∀ cache2, CacheFits D cache2 →
      ∃ cache3, rec addr f.2.2 Chain.nil cache2 = some (.ok f.2.2 none cache3) ∧
        CacheFits D cache3)
    (hc : CacheFits D cache) :
    ∃ cache2, morphStructSt R rec addr p nm fs cache =
      some (.ok (.structv p nm fs) none cache2) ∧ CacheFits D cache2 := by
  have hbuild : buildStructCache R fs = .ok (nilDescr (eligibleIdxs 0 fs)) := by
    unfold buildStructCache
    exact buildStructCacheAux_noAnnot R fs 0 (fun f hf => (noAnnotFields_spec hfs hf).1)
  have hnil2 : ∀ e ∈ nilDescr (eligibleIdxs 0 fs), e.2 = Chain.nil := by
    intro e he
    obtain ⟨i, hi, hei⟩ := List.mem_map.mp he
    rw [← hei]
  have hidxs : ∀ e ∈ nilDescr (eligibleIdxs 0 fs), ∃ f, fs[e.1]? = some f := by
    intro e he
    obtain ⟨i, hi, hei⟩ := List.mem_map.mp he
    have hb := eligibleIdxs_mem_lt fs 0 i hi
    have hlen : i < fs.length := by omega
    rw [← hei]
    exact ⟨fs[i], List.getElem?_eq_getElem hlen⟩
  cases hlk : cache.lookup (structKey p nm) with
  | some sc =>
    have hmem := lookup_mem cache (structKey p nm) sc hlk
    have hsc : sc = nilDescr (D (structKey p nm)) := hc (structKey p nm, sc) hmem
    have hsceq : sc = nilDescr (eligibleIdxs 0 fs) := by rw [hsc, ← hidx]
    obtain ⟨cache2, hrun, hc2⟩ := runFieldsSt_id rec addr (CacheFits D)
      (nilDescr (eligibleIdxs 0 fs)) fs cache hnil2 hidxs hrec hc
    refine ⟨cache2, ?_, hc2⟩
    simp only [morphStructSt, hlk, hsceq, hrun]
  | none =>
    have hc2 : CacheFits D
        (cache ++ [(structKey p nm, nilDescr (eligibleIdxs 0 fs))]) := by
      intro e he
      rcases List.mem_append.mp he with h | h
      · exact hc e h
      · simp only [List.mem_singleton] at h
        subst h
        show nilDescr (eligibleIdxs 0 fs) = nilDescr (D (structKey p nm))
        rw [hidx]
    obtain ⟨cache2, hrun, hc3⟩ := runFieldsSt_id rec addr (CacheFits D)
      (nilDescr (eligibleIdxs 0 fs)) fs
      (cache ++ [(structKey p nm, nilDescr (eligibleIdxs 0 fs))]) hnil2 hidxs hrec hc2
    refine ⟨cache2, ?_, hc3⟩
    simp only [morphStructSt, hlk, hbuild, hrun]

/-- The shared-cache traversal with an absent chain is the identity on
annotation-free values fitting a consistent descriptor assignment, and
preserves cache consistency. -/
theorem morphFieldSt_noAnnot_id (R : Registry) (D : String → List Nat) :
    ∀ (n : Nat) (addr : Bool) (v : Value) (cache : List (String × StructDescr)),
      noAnnot v = true → fitsD D v = true → adepth v ≤ n → CacheFits D cache →
      ∃ cache2, morphFieldSt R n addr v Chain.nil cache =
        some (.ok v none cache2) ∧ CacheFits D cache2 := by
  intro n
  induction n with
  | zero =>
    intro addr v cache _ _ h2 _
    have := adepth_pos v
    omega
  | succ n ih =>
    intro addr v cache h1 hD h2 hc
    cases v with
    | str s => exact ⟨cache, rfl, hc⟩
    | int k => exact ⟨cache, rfl, hc⟩
    | slice es => exact ⟨cache, rfl, hc⟩
    | mp m => exact ⟨cache, rfl, hc⟩
    | iface w =>
      cases w with
      | none => exact ⟨cache, rfl, hc⟩
      | some w2 =>
        have hd : adepth w2 ≤ n := by simp only [adepth] at h2; omega
        obtain ⟨cache2, hih, hc2⟩ := ih false w2 cache (by simpa [noAnnot] using h1)
          (by simpa [fitsD] using hD) hd hc
        exact ⟨cache2, by simp only [morphFieldSt, hih], hc2⟩
    | ptr z w =>
      cases w with
      | none => exact ⟨cache, rfl, hc⟩
      | some w2 =>
        have hd : adepth w2 ≤ n := by simp only [adepth] at h2; omega
        obtain ⟨cache2, hih, hc2⟩ := ih true w2 cache (by simpa [noAnnot] using h1)
          (by simpa [fitsD] using hD) hd hc
        exact ⟨cache2, by simp only [morphFieldSt, hih], hc2⟩
    | structv p nm fs =>
      have hd : adepthFields fs ≤ n := by simp only [adepth] at h2; omega
      have hfs : noAnnotFields fs = true := by simpa [noAnnot] using h1
      have hDs := hD
      simp only [fitsD, Bool.and_eq_true, decide_eq_true_eq] at hDs
      exact morphStructSt_noAnnot_id R D (morphFieldSt R n) addr p nm fs cache hfs hDs.1
        (fun f hf cache2 hc2 => ih addr f.2.2 cache2 (noAnnotFields_spec hfs hf).2
          (fitsDFields_spec hDs.2 hf) (le_trans (adepthFields_le hf) hd) hc2)
        hc

/-- C7 (amended): through the real shared descriptor cache, a record none of
whose fields (anywhere in the record tree) carries an annotation producing a
token is processed successfully and returned identical, *provided* a single
descriptor assignment fits every shape of the tree and every pre-existing
cache entry — in particular whenever any two shapes sharing a
`pkgPath/name` cache key have the same eligible fields.  Without that
proviso the claim fails: see `c7_anon_collision_panics`, where a key
collision between two anonymous shapes makes the traversal panic. -/
theorem c7_no_tags_identity_cached (R : Registry) (D : String → List Nat)
    (fuel : Nat) (z : Value) (p nm : String) (fs : List (Bool × String × Value))
    (cache : List (String × StructDescr))
    (h1 : noAnnot (.structv p nm fs) = true)
    (h2 : fitsD D (.structv p nm fs) = true)
    (h3 : ∀ f ∈ fs, adepth f.2.2 ≤ fuel)
    (hc : CacheFits D cache) :
    ∃ cache2, structTopSt fuel R cache (some (.ptr z (some (.structv p nm fs)))) =
      some (.ok (some (.ptr z (some (.structv p nm fs)))) none cache2) ∧
      CacheFits D cache2 := by
  have hfs : noAnnotFields fs = true := by simpa [noAnnot] using h1
  have hDs := h2
  simp only [fitsD, Bool.and_eq_true, decide_eq_true_eq] at hDs
  obtain ⟨cache2, hms, hc2⟩ := morphStructSt_noAnnot_id R D (morphFieldSt R fuel) true
    p nm fs cache hfs hDs.1
    (fun f hf cache3 hc3 => morphFieldSt_noAnnot_id R D fuel true f.2.2 cache3
      (noAnnotFields_spec hfs hf).2 (fitsDFields_spec hDs.2 hf) (h3 f hf) hc3)
    hc
  refine ⟨cache2, ?_, hc2⟩
  simp only [structTopSt, hms]

def c7dup : Value := .structv "p" "W"
  [(true, ",", .structv "" "" [(true, "", .str "a")]),
   (true, "", .structv "" "" [(true, ",,", .str "b")])]

def c7D : String → List Nat := fun k =>
  if k = structKey "p" "W" then [0, 1]
  else if k = structKey "" "" then [0]
  else []

theorem c7_no_tags_identity_cached_witness :
    (noAnnot c7dup = true ∧ fitsD c7D c7dup = true) ∧
    ∃ cache2, structTopSt 3 defaultRegistry [] (some (.ptr (.str "") (some c7dup))) =
      some (.ok (some (.ptr (.str "") (some c7dup))) none cache2) ∧
      CacheFits c7D cache2 :=
  ⟨⟨by decide, by decide⟩,
    c7_no_tags_identity_cached defaultRegistry c7D 3 (.str "") "p" "W"
      [(true, ",", .structv "" "" [(true, "", .str "a")]),
       (true, "", .structv "" "" [(true, ",,", .str "b")])]
      [] (by decide) (by decide) (by decide) (by simp [CacheFits])⟩

/-! ## Registration after caching (claim C10)

`Register` only swaps the entry in the transformer registry; it does not
touch the descriptor cache, and a compiled chain carries the transformer
*reference* resolved when the chain was built.  The registry is consulted
again only to compile chains (i.e. when the traversal meets a record shape),
so for a cached shape whose fields are scalars — and whose cached chains use
transformers that produce scalar values, as all the built-in string
transformers do — processing is completely independent of later `Register`
calls. -/

def isScalar : Value → Bool
  | .str _ => true
  | .int _ => true
  | _ => false

/-- Every transformer in the chain maps (under the chain's own compiled
parameter) successful outputs to string values. -/
def ChainScalarOut : Chain → Prop
  | .nil => True
  | .node _ tr p _ next =>
    (match tr with
     | none => True
     | some T => ∀ v w, T.transform p v = .ok w → ∃ s, w = .str s) ∧
    ChainScalarOut next

theorem trimTransformer_scalarOut (p : Option Int) (v w : Value)
    (h : trimTransformer.transform p v = .ok w) : ∃ s, w = .str s := by
  cases v with
  | str s =>
    refine ⟨goTrimSpace s, ?_⟩
    simpa [trimTransformer, trimTransform] using h.symm
  | _ => simp [trimTransformer, trimTransform] at h

/-- The chain walk on a scalar value never invokes the recursive traverser
(diving into a scalar fails at once) and never touches the cache, so it is
independent of the traverser — and in particular of the registry behind
it. -/
theorem morphChainSt_rec_irrelevant (rec rec2 : TraverserSt) (addr : Bool) :
    ∀ (c : Chain) (orig w : Value) (cache : List (String × StructDescr)),
      isScalar orig = true → ChainScalarOut c →
      morphChainSt rec addr orig w c cache = morphChainSt rec2 addr orig w c cache := by
  intro c
  induction c with
  | nil => intros; rfl
  | node t tr p kc next ihkc ihnext =>
    intro orig w cache hsc hc
    simp only [morphChainSt]
    by_cases ht : t = TagDive
    · rw [if_pos ht, if_pos ht]
      cases orig with
      | str s => rfl
      | int k => rfl
      | _ => simp [isScalar] at hsc
    · rw [if_neg ht, if_neg ht]
      cases tr with
      | none => exact ihnext orig w cache hsc hc.2
      | some T =>
        show (match T.transform p w with
          | Except.error e => some (StRes.ok orig (some e) cache)
          | Except.ok w2 =>
            morphChainSt rec addr (if addr = true then w2 else orig) w2 next cache) =
          (match T.transform p w with
          | Except.error e => some (StRes.ok orig (some e) cache)
          | Except.ok w2 =>
            morphChainSt rec2 addr (if addr = true then w2 else orig) w2 next cache)
        cases hT : T.transform p w with
        | error e => rfl
        | ok w2 =>
          obtain ⟨s, hs⟩ := hc.1 w w2 hT
          refine ihnext _ w2 cache ?_ hc.2
          cases addr with
          | true => simp [hs, isScalar]
          | false => exact hsc

/-- The result of the chain walk on a scalar value is a scalar. -/
theorem morphChainSt_scalar_result (rec : TraverserSt) (addr : Bool) :
    ∀ (c : Chain) (orig w v2 : Value) (e : Option Err)
      (cache cache2 : List (String × StructDescr)),
      isScalar orig = true → ChainScalarOut c →
      morphChainSt rec addr orig w c cache = some (.ok v2 e cache2) →
      isScalar v2 = true := by
  intro c
  induction c with
  | nil =>
    intro orig w v2 e cache cache2 hsc _ hr
    cases hr
    exact hsc
  | node t tr p kc next ihkc ihnext =>
    intro orig w v2 e cache cache2 hsc hc hr
    simp only [morphChainSt] at hr
    by_cases ht : t = TagDive
    · rw [if_pos ht] at hr
      cases orig with
      | str s => cases hr; exact hsc
      | int k => cases hr; exact hsc
      | _ => simp [isScalar] at hsc
    · rw [if_neg ht] at hr
      cases tr with
      | none => exact ihnext orig w v2 e cache cache2 hsc hc.2 hr
      | some T =>
        replace hr : (match T.transform p w with
          | Except.error e2 => some (StRes.ok orig (some e2) cache)
          | Except.ok w2 =>
            morphChainSt rec addr (if addr = true then w2 else orig) w2 next cache)
            = some (StRes.ok v2 e cache2) := hr
        cases hT : T.transform p w with
        | error e2 =>
          rw [hT] at hr
          cases hr
          exact hsc
        | ok w2 =>
          rw [hT] at hr
          obtain ⟨s, hs⟩ := hc.1 w w2 hT
          refine ihnext _ w2 v2 e cache cache2 ?_ hc.2 hr
          cases addr with
          | true => simp [hs, isScalar]
          | false => exact hsc

theorem morphFieldSt_scalar_rec_irrelevant (R R2 : Registry) (n : Nat) (addr : Bool)
    (v : Value) (c : Chain) (cache : List (String × StructDescr))
    (hv : isScalar v = true) (hc : ChainScalarOut c) :
    morphFieldSt R n addr v c cache = morphFieldSt R2 n addr v c cache := by
  cases n with
  | zero => rfl
  | succ n =>
    cases v with
    | str s =>
      exact morphChainSt_rec_irrelevant (morphFieldSt R n) (morphFieldSt R2 n) addr
        c _ _ cache hv hc
    | int k =>
      exact morphChainSt_rec_irrelevant (morphFieldSt R n) (morphFieldSt R2 n) addr
        c _ _ cache hv hc
    | _ => simp [isScalar] at hv

theorem morphFieldSt_scalar_result (R : Registry) (n : Nat) (addr : Bool)
    (v : Value) (c : Chain) (v2 : Value) (e : Option Err)
    (cache cache2 : List (String × StructDescr))
    (hv : isScalar v = true) (hc : ChainScalarOut c)
    (h : morphFieldSt R n addr v c cache = some (.ok v2 e cache2)) :
    isScalar v2 = true := by
  cases n with
  | zero => cases h
  | succ n =>
    cases v with
    | str s =>
      exact morphChainSt_scalar_result (morphFieldSt R n) addr c _ _ v2 e
        cache cache2 hv hc h
    | int k =>
      exact morphChainSt_scalar_result (morphFieldSt R n) addr c _ _ v2 e
        cache cache2 hv hc h
    | _ => simp [isScalar] at hv

/-- Running a cached descriptor whose chains have scalar outputs over
scalar fields does not depend on the registry (and the two runs agree on
the cache they hand back, panic included). -/
theorem runFieldsSt_scalar_registry_irrelevant (R R2 : Registry) (fuel : Nat)
    (addr : Bool) :
    ∀ (sc : StructDescr) (fs : List (Bool × String × Value))
      (cache : List (String × StructDescr)),
      (∀ f ∈ fs, isScalar f.2.2 = true) →
      (∀ e ∈ sc, ChainScalarOut e.2) →
      runFieldsSt (morphFieldSt R fuel) addr sc fs cache =
        runFieldsSt (morphFieldSt R2 fuel) addr sc fs cache := by
  intro sc
  induction sc with
  | nil => intro fs cache _ _; rfl
  | cons e rest ih =>
    intro fs cache hfs hsc
    obtain ⟨i, ch⟩ := e
    have hch : ChainScalarOut ch := hsc (i, ch) (by simp)
    cases hfi : fs[i]? with
    | none => simp only [runFieldsSt, hfi]
    | some ent =>
      obtain ⟨ex, tg, fv⟩ := ent
      have hmem : (ex, tg, fv) ∈ fs := List.getElem?_mem hfi
      have hfv : isScalar fv = true := hfs (ex, tg, fv) hmem
      have heq := morphFieldSt_scalar_rec_irrelevant R R2 fuel addr fv ch cache hfv hch
      simp only [runFieldsSt, hfi, ← heq]
      cases hmf : morphFieldSt R fuel addr fv ch cache with
      | none => rfl
      | some r =>
        cases r with
        | panic => rfl
        | ok fv2 e2 cache2 =>
          have hfv2 : isScalar fv2 = true :=
            morphFieldSt_scalar_result R fuel addr fv ch fv2 e2 cache cache2 hfv hch hmf
          cases e2 with
          | some err => rfl
          | none =>
            exact ih (fs.set i (ex, tg, fv2)) cache2
              (fun f hf => by
                rcases List.mem_or_eq_of_mem_set hf with h | h
                · exact hfs f h
                · rw [h]; exact hfv2)
              (fun e he => hsc e (by simp [he]))

/-! The original claim fails for shapes with nested record fields: only the
*cached shape's own* chains are frozen at compilation time.  A nested
record's descriptor is compiled (against the *current* registry) when the
traversal reaches it and finds its key uncached — reachable e.g. when the
first run errors out before that field, or processes a record whose nested
pointer was nil.  A `Register` override between the runs then changes the
processing of records of the cached shape.  The counterexample computes
such a divergence on the faithful shared-cache engine; the amended theorem
confirms the claim for cached shapes all of whose fields are scalars (with
scalar-output chains, as all built-in string transformers are), where no
recompilation can occur. -/

def c10nested : Value := .structv "p" "U" [(true, TagTrim, .str " x ")]

def c10outer : Value := .structv "p" "S" [(true, "", c10nested)]

def c10cacheS : List (String × StructDescr) := [(structKey "p" "S", [(0, Chain.nil)])]

def c10custom2 : FieldTransformer := ⟨fun _ => .ok none, fun _ _ => .ok (.str "CUSTOM")⟩

def c10afterR : Registry := fun s =>
  if s = goTrimSpace "trim" then some c10custom2 else defaultRegistry s

/-- C10 (counterexample): shape `S` is cached (its single field, a record of
shape `U`, carries no tags, so `S`'s own cached chain is absent), `U` is not
cached, and `U`'s field uses `trim`.  Registering an override for `trim`
leaves the descriptor cache untouched, yet processing a record of the
cached shape `S` differs before and after: the nested `U` descriptor is
compiled at traversal time against the current registry. -/
theorem c10_register_changes_uncached_nested :
    register ⟨defaultRegistry, c10cacheS⟩ "trim" (some c10custom2) =
      .ok ⟨c10afterR, c10cacheS⟩ ∧
    (⟨c10afterR, c10cacheS⟩ : MorphState).structsCache = c10cacheS ∧
    (structTopSt 4 defaultRegistry c10cacheS
        (some (.ptr (.str "") (some c10outer)))).map StRes.out =
      some (some (some (.ptr (.str "") (some (.structv "p" "S"
        [(true, "", .structv "p" "U" [(true, TagTrim, .str "x")])]))), none)) ∧
    (structTopSt 4 c10afterR c10cacheS
        (some (.ptr (.str "") (some c10outer)))).map StRes.out =
      some (some (some (.ptr (.str "") (some (.structv "p" "S"
        [(true, "", .structv "p" "U" [(true, TagTrim, .str "CUSTOM")])]))), none)) ∧
    Value.str "x" ≠ Value.str "CUSTOM" :=
  ⟨rfl, rfl, rfl, rfl, by decide⟩

/-- C10 (amended): a successful `Register` never touches the descriptor
cache, and for a cached shape all of whose fields are scalars — with
scalar-output chains, e.g. the built-in string transformers — processing a
record of that shape through the shared-cache engine behaves identically
before and after the registration: the cached chains keep the transformer
references resolved at compilation time, and no nested shape can force a
recompilation.  With a nested record field the claim fails
(`c10_register_changes_uncached_nested`). -/
theorem c10_register_after_cache :
    ∀ (st st2 : MorphState) (tag : String) (tr : FieldTransformer),
      register st tag (some tr) = .ok st2 →
      st2.structsCache = st.structsCache ∧
      ∀ (fuel : Nat) (z : Value) (p nm : String)
        (fs : List (Bool × String × Value)) (sc : StructDescr),
        st.structsCache.lookup (structKey p nm) = some sc →
        (∀ f ∈ fs, isScalar f.2.2 = true) →
        (∀ e ∈ sc, ChainScalarOut e.2) →
        structTopSt fuel st2.transformers st2.structsCache
            (some (.ptr z (some (.structv p nm fs)))) =
          structTopSt fuel st.transformers st.structsCache
            (some (.ptr z (some (.structv p nm fs)))) := by
  intro st st2 tag tr h
  unfold register at h
  by_cases h1 : (goTrimSpace tag).length = 0
  · rw [if_pos h1] at h; cases h
  · rw [if_neg h1] at h
    by_cases h2 : navigationalTags (goTrimSpace tag) = true
    · rw [if_pos h2] at h; cases h
    · rw [if_neg h2] at h
      have hst : st2 = ⟨fun s => if s = goTrimSpace tag then some tr
          else st.transformers s, st.structsCache⟩ := by
        cases h; rfl
      subst hst
      refine ⟨rfl, fun fuel z p nm fs sc hlk hfs hsc => ?_⟩
      show structTopSt fuel
          (fun s => if s = goTrimSpace tag then some tr else st.transformers s)
          st.structsCache (some (.ptr z (some (.structv p nm fs)))) =
        structTopSt fuel st.transformers st.structsCache
          (some (.ptr z (some (.structv p nm fs))))
      have hrf := runFieldsSt_scalar_registry_irrelevant
        (fun s => if s = goTrimSpace tag then some tr else st.transformers s)
        st.transformers fuel true sc fs st.structsCache hfs hsc
      simp only [structTopSt, morphStructSt, hlk, hrf]

def c10trimChain : Chain := .node TagTrim (some trimTransformer) none .nil .nil

def c10cached : MorphState :=
  ⟨defaultRegistry, [(structKey "p" "T", [(0, c10trimChain)])]⟩

def c10custom : FieldTransformer :=
  ⟨fun _ => .ok none, fun _ _ => .ok (.str "overridden")⟩

def c10after : MorphState :=
  ⟨fun s => if s = goTrimSpace "trim" then some c10custom
    else c10cached.transformers s, c10cached.structsCache⟩

theorem c10_register_after_cache_witness :
    structTopSt 3 c10after.transformers c10after.structsCache
        (some (.ptr (.str "") (some (.structv "p" "T" [(true, TagTrim, .str " A ")])))) =
      structTopSt 3 c10cached.transformers c10cached.structsCache
        (some (.ptr (.str "") (some (.structv "p" "T" [(true, TagTrim, .str " A ")])))) ∧
    (structTopSt 3 c10cached.transformers c10cached.structsCache
        (some (.ptr (.str "") (some (.structv "p" "T"
          [(true, TagTrim, .str " A ")]))))).map StRes.out =
      some (some (some (.ptr (.str "") (some (.structv "p" "T"
        [(true, TagTrim, .str "A")]))), none)) :=
  ⟨(c10_register_after_cache c10cached c10after "trim" c10custom rfl).2
      3 (.str "") "p" "T" [(true, TagTrim, .str " A ")] [(0, c10trimChain)]
      rfl (by decide)
      (fun e he => by
        simp only [List.mem_singleton] at he
        subst he
        exact ⟨fun v w h => trimTransformer_scalarOut none v w h, trivial⟩),
    rfl⟩

theorem c8_entry_contract_witness :
    structTop 1 ⟨defaultRegistry, []⟩ (some (.str "s")) =
      some (some (.str "s"), some .notAPointer, ⟨defaultRegistry, []⟩) ∧
    structTop 1 ⟨defaultRegistry, []⟩ (some (.ptr (.str "") (some (.str "x")))) =
      some (some (.ptr (.str "") (some (.str "x"))), some .notAStruct, ⟨defaultRegistry, []⟩) :=
  ⟨c8_entry_contract.2.1 1 ⟨defaultRegistry, []⟩ (Value.str "s") (fun z w => by simp),
    c8_entry_contract.2.2.2.1 1 ⟨defaultRegistry, []⟩ (Value.str "") (Value.str "x")
      (fun p nm fs => by simp)⟩

/-! ## Key renaming over maps (claim C3)

`morphMap` iterates over a snapshot of the keys; for each snapshot key the
entry is removed and reinserted under the transformed key.  When a
transformed key `K k` coincides with a *different* original key that has not
been visited yet, the reinsertion overwrites that pending entry, which is
then itself picked up (already transformed) when its snapshot key comes up:
an entry is lost even though `K` is injective on the original keys.  The
claim therefore needs the extra hypothesis that `K` maps no original key
onto a different original key. -/

/-- A key transformer that is injective on `{"a", "b"}` but shifts `"a"`
onto the original key `"b"`. -/
def c3shift : FieldTransformer :=
  ⟨fun _ => .ok none, fun _ v =>
    match v with
    | .str "a" => .ok (.str "b")
    | .str "b" => .ok (.str "c")
    | v2 => .ok v2⟩

def c3registry : Registry := fun t =>
  if t = "shift" then some c3shift else defaultRegistry t

/-- C3 (counterexample): for the map field tagged `dive,keys,shift,exit,upper`
with entries `{"a" ↦ "x", "b" ↦ "y"}` the key transformer is injective on the
original keys (`"a" ↦ "b"`, `"b" ↦ "c"`), yet the run succeeds with a single
entry `{"c" ↦ "X"}`: the original entry `("b", "y")` is lost, and the result
has fewer entries than the input. -/
theorem c3_injective_rename_loses_entry :
    c3shift.transform none (.str "a") = .ok (.str "b") ∧
    c3shift.transform none (.str "b") = .ok (.str "c") ∧
    (structTop 4 ⟨c3registry, []⟩ (some (.ptr (.str "") (some (.structv "p" "M"
        [(true, "dive,keys,shift,exit,upper", .mp
          [(.str "a", .str "x"), (.str "b", .str "y")])]))))).map
        (fun r => (r.1, r.2.1)) =
      some (some (.ptr (.str "") (some (.structv "p" "M"
        [(true, "dive,keys,shift,exit,upper", .mp [(.str "c", .str "X")])]))), none) :=
  ⟨rfl, rfl, rfl⟩

theorem nodup_append_singleton {α : Type} {l : List α} {a : α}
    (h1 : l.Nodup) (h2 : a ∉ l) : (l ++ [a]).Nodup := by
  induction l with
  | nil => simp
  | cons b t ih =>
    simp only [List.nodup_cons] at h1
    simp only [List.mem_cons, not_or] at h2
    simp only [List.cons_append, List.nodup_cons]
    refine ⟨?_, ih h1.2 h2.2⟩
    intro hb
    rcases List.mem_append.mp hb with h | h
    · exact h1.1 h
    · simp only [List.mem_singleton] at h
      exact h2.1 h.symm

/-- On a map whose keys are pairwise distinct, `MapIndex` finds the stored
value of every entry. -/
theorem mapGet_of_mem_nodup : ∀ {m : List (Value × Value)} {k v : Value},
    (m.map Prod.fst).Nodup → (k, v) ∈ m → mapGet m k = some v := by
  intro m
  induction m with
  | nil => intro k v _ h; cases h
  | cons e rest ih =>
    intro k v hnd hmem
    obtain ⟨k2, v2⟩ := e
    simp only [List.map_cons, List.nodup_cons] at hnd
    simp only [mapGet]
    by_cases hk : k2 = k
    · subst hk
      rw [if_pos rfl]
      rcases List.mem_cons.mp hmem with h | h
      · cases h; rfl
      · exact absurd (List.mem_map_of_mem Prod.fst h) hnd.1
    · rw [if_neg hk]
      rcases List.mem_cons.mp hmem with h | h
      · cases h; exact absurd rfl hk
      · exact ih hnd.2 h

/-- Deleting an entry of a distinct-key map and putting it back in front is
a permutation of the map. -/
theorem mapDel_cons_perm : ∀ {m : List (Value × Value)} {k v : Value},
    (m.map Prod.fst).Nodup → (k, v) ∈ m → ((k, v) :: mapDel m k).Perm m := by
  intro m
  induction m with
  | nil => intro k v _ h; cases h
  | cons e rest ih =>
    intro k v hnd hmem
    obtain ⟨k2, v2⟩ := e
    simp only [List.map_cons, List.nodup_cons] at hnd
    simp only [mapDel]
    by_cases hk : k2 = k
    · subst hk
      rw [if_pos rfl]
      rcases List.mem_cons.mp hmem with h | h
      · cases h; exact List.Perm.refl _
      · exact absurd (List.mem_map_of_mem Prod.fst h) hnd.1
    · rw [if_neg hk]
      rcases List.mem_cons.mp hmem with h | h
      · cases h; exact absurd rfl hk
      · exact (List.Perm.swap (k2, v2) (k, v) _).trans ((ih hnd.2 h).cons (k2, v2))

/-- `SetMapIndex` with a key not present in the map appends the entry. -/
theorem mapSet_fresh : ∀ {m : List (Value × Value)} {k v : Value},
    k ∉ m.map Prod.fst → mapSet m k v = m ++ [(k, v)] := by
  intro m
  induction m with
  | nil => intro k v _; rfl
  | cons e rest ih =>
    intro k v hk
    obtain ⟨k2, v2⟩ := e
    simp only [List.map_cons, List.mem_cons, not_or] at hk
    simp only [mapSet]
    rw [if_neg (fun h => hk.1 h.symm), ih hk.2]
    rfl

/-- The invariant-carrying induction behind C3: `pend` is the part of the
snapshot still to visit (with the original values still stored under those
keys), `acc` the already-produced transformed entries, and the current map
is a permutation of `pend ++ acc`.  Transformed keys avoid every key still
in flight, so each step deletes its own entry and appends a fresh one. -/
theorem morphMapGo_renames (rec : Traverser) (tags kc next : Chain)
    (K V : Value → Value) (hsk : shouldMorphKeys tags = some (kc, next)) :
    ∀ (pend acc m : List (Value × Value)),
      (∀ e ∈ pend, rec true e.1 kc = some (K e.1, none)) →
      (∀ e ∈ pend, rec true e.2 next = some (V e.2, none)) →
      ((pend ++ acc).map Prod.fst).Nodup →
      (∀ e ∈ pend, ∀ e2 ∈ pend, K e.1 = K e2.1 → e.1 = e2.1) →
      (∀ e ∈ pend, K e.1 = e.1 ∨ K e.1 ∉ (pend ++ acc).map Prod.fst) →
      m.Perm (pend ++ acc) →
      ∃ m2, morphMapGo rec tags (pend.map Prod.fst) m = some (m2, none) ∧
        m2.Perm (pend.map (fun e => (K e.1, V e.2)) ++ acc) := by
  intro pend
  induction pend with
  | nil =>
    intro acc m _ _ _ _ _ hperm
    exact ⟨m, rfl, hperm⟩
  | cons kv pend ih =>
    intro acc m hK hV hnd hinj hfix hperm
    obtain ⟨k, v⟩ := kv
    have hnd0 := hnd
    simp only [List.cons_append, List.map_cons, List.nodup_cons] at hnd
    have mnodup : (m.map Prod.fst).Nodup :=
      ((hperm.map Prod.fst).nodup_iff).mpr hnd0
    have hkvmem : (k, v) ∈ m := hperm.mem_iff.mpr (by simp)
    have hget : mapGet m k = some v := mapGet_of_mem_nodup mnodup hkvmem
    have hdelperm : (mapDel m k).Perm (pend ++ acc) :=
      ((mapDel_cons_perm mnodup hkvmem).trans hperm).cons_inv
    have hknotin : K k ∉ (pend ++ acc).map Prod.fst := by
      rcases hfix (k, v) (List.mem_cons_self _ _) with h | h
      · have hk : K k = k := h
        rw [hk]
        exact hnd.1
      · exact fun hc => h (List.mem_cons_of_mem _ hc)
    have hsetEq : mapSet (mapDel m k) (K k) (V v) = mapDel m k ++ [(K k, V v)] :=
      mapSet_fresh (fun hc => hknotin ((hdelperm.map Prod.fst).mem_iff.mp hc))
    have hperm2 : (mapDel m k ++ [(K k, V v)]).Perm
        (pend ++ (acc ++ [(K k, V v)])) := by
      have h := hdelperm.append_right [(K k, V v)]
      rw [List.append_assoc] at h
      exact h
    have hnd2 : ((pend ++ (acc ++ [(K k, V v)])).map Prod.fst).Nodup := by
      have h := nodup_append_singleton hnd.2 hknotin
      simpa [List.map_append, List.append_assoc] using h
    have hfix2 : ∀ e ∈ pend,
        K e.1 = e.1 ∨ K e.1 ∉ (pend ++ (acc ++ [(K k, V v)])).map Prod.fst := by
      intro e he
      rcases hfix e (List.mem_cons_of_mem _ he) with h | h
      · exact Or.inl h
      · refine Or.inr fun hc => ?_
        simp only [List.map_append, List.mem_append, List.map_cons, List.map_nil,
          List.mem_singleton] at hc
        rcases hc with hc | hc | hc
        · exact h (by simp [hc])
        · exact h (by simp [hc])
        · have he1 : e.1 = k :=
            hinj e (List.mem_cons_of_mem _ he) (k, v) (List.mem_cons_self _ _) hc
          have hin : e.1 ∈ (pend ++ acc).map Prod.fst :=
            List.mem_map_of_mem Prod.fst (List.mem_append_left acc he)
          exact hnd.1 (he1 ▸ hin)
    have hKk : rec true k kc = some (K k, none) := hK (k, v) (List.mem_cons_self _ _)
    have hVv : rec true v next = some (V v, none) := hV (k, v) (List.mem_cons_self _ _)
    obtain ⟨m2, heq, hp⟩ := ih (acc ++ [(K k, V v)]) (mapDel m k ++ [(K k, V v)])
      (fun e he => hK e (List.mem_cons_of_mem _ he))
      (fun e he => hV e (List.mem_cons_of_mem _ he))
      hnd2
      (fun e he e2 he2 h =>
        hinj e (List.mem_cons_of_mem _ he) e2 (List.mem_cons_of_mem _ he2) h)
      hfix2 hperm2
    refine ⟨m2, ?_, ?_⟩
    · show morphMapGo rec tags (k :: pend.map Prod.fst) m = some (m2, none)
      simp only [morphMapGo, hget, hsk, morphMapKey, hKk, hVv]
      rw [hsetEq]
      exact heq
    · refine hp.trans ?_
      have h1 : (pend.map (fun e => (K e.1, V e.2)) ++ acc) ++ [(K k, V v)]
          |>.Perm ((K k, V v) :: (pend.map (fun e => (K e.1, V e.2)) ++ acc)) :=
        List.perm_append_singleton _ _
      rw [List.append_assoc] at h1
      exact h1

/-- C3 (amended): over a map whose chain starts with a `keys` node, if each
original key transforms (through the key sub-chain) without error to `K k`
and each original value (through the value chain) to `V v`, the original
keys are pairwise distinct, `K` is injective on them, **and** `K` maps no
original key onto a *different* original key, then the run succeeds and the
resulting map holds exactly the entries `(K k, V v)` — the same number of
entries as the input, none lost or duplicated.  Without the extra
no-shift-onto-original-key hypothesis the conclusion fails (see the
counterexample above). -/
theorem c3_map_keys_renaming_no_loss (rec : Traverser) (tags kc next : Chain)
    (K V : Value → Value) (entries : List (Value × Value))
    (hsk : shouldMorphKeys tags = some (kc, next))
    (hK : ∀ e ∈ entries, rec true e.1 kc = some (K e.1, none))
    (hV : ∀ e ∈ entries, rec true e.2 next = some (V e.2, none))
    (hnd : (entries.map Prod.fst).Nodup)
    (hinj : ∀ e ∈ entries, ∀ e2 ∈ entries, K e.1 = K e2.1 → e.1 = e2.1)
    (hfree : ∀ e ∈ entries, K e.1 ∈ entries.map Prod.fst → K e.1 = e.1) :
    ∃ m2, morphMap rec entries tags = some (m2, none) ∧
      m2.Perm (entries.map (fun e => (K e.1, V e.2))) := by
  have h5 : ∀ e ∈ entries, K e.1 = e.1 ∨ K e.1 ∉ (entries ++ []).map Prod.fst := by
    intro e he
    by_cases hm : K e.1 ∈ entries.map Prod.fst
    · exact Or.inl (hfree e he hm)
    · exact Or.inr (by simpa using hm)
  obtain ⟨m2, heq, hp⟩ := morphMapGo_renames rec tags kc next K V hsk entries [] entries
    hK hV (by simpa using hnd) hinj h5 (by simp)
  exact ⟨m2, heq, by simpa using hp⟩

def c3K : Value → Value
  | .str s => .str (goToUpper s)
  | v => v

def c3V : Value → Value
  | .str s => .str (goTrimSpace s)
  | v => v

def c3kc : Chain := .node TagUpper (some toUpperTransformer) none .nil .nil

def c3next : Chain := .node TagTrim (some trimTransformer) none .nil .nil

def c3tags : Chain := .node TagKeys none none c3kc c3next

def c3entries : List (Value × Value) := [(.str "a", .str " x "), (.str "b", .str " y ")]

theorem c3_map_keys_renaming_no_loss_witness :
    ∃ m2, morphMap (morphField defaultRegistry 2) c3entries c3tags = some (m2, none) ∧
      m2.Perm (c3entries.map (fun e => (c3K e.1, c3V e.2))) :=
  c3_map_keys_renaming_no_loss (morphField defaultRegistry 2) c3tags c3kc c3next
    c3K c3V c3entries rfl (by decide) (by decide) (by decide) (by decide) (by decide)

end Morph
